import Mathlib

/-!
Verification development for the zearo server-side rendering library
(src/main.ts).  The file embeds the three core pieces of the library —
the expression analyzer (`analyzeRender`, `analyzeAsyncExpression`), the
HTML factory (`createHtmlFactory`'s template closure), and the client
script generator (`generateScript`) — as executable Lean definitions and
proves theorems about the specification's claims.

Strings of markup are modelled as `List Char` (named `Str`) so that
decompositions and searches can be reasoned about directly; short atomic
names (field names, tags, identifiers) stay `String`.
-/

abbrev Str := List Char

/-- Shorthand turning a string literal into the `List Char` representation. -/
def cs (s : String) : Str := s.toList

/-- Substring test: does `pat` occur contiguously inside `l`?
Models JavaScript `String.prototype.includes`. -/
def containsSub (pat : Str) : Str → Bool
  | [] => pat.isEmpty
  | c :: rest => pat.isPrefixOf (c :: rest) || containsSub pat rest

/-- Replace the first occurrence of `pat` (nonempty) by `rep`.
Models JavaScript `String.prototype.replace` with a string pattern. -/
def replaceFirst (pat rep : Str) : Str → Str
  | [] => []
  | c :: rest =>
    if pat ≠ [] ∧ pat.isPrefixOf (c :: rest) then rep ++ (c :: rest).drop pat.length
    else c :: replaceFirst pat rep rest

/-- Fueled single step list of global replacement (structural recursion
so that terms reduce in the kernel; the fuel never runs out when it is
at least the list length). -/
def replaceAllF (pat rep : Str) : Nat → Str → Str
  | 0, l => l
  | _ + 1, [] => []
  | fuel + 1, c :: rest =>
    if pat ≠ [] ∧ pat.isPrefixOf (c :: rest) then
      rep ++ replaceAllF pat rep fuel ((c :: rest).drop pat.length)
    else c :: replaceAllF pat rep fuel rest

/-- Replace every occurrence of `pat` (nonempty) by `rep`, left to right,
non-overlapping.  Models JavaScript `s.replace(/pat/g, rep)` for a fixed
textual pattern. -/
def replaceAllSub (pat rep l : Str) : Str := replaceAllF pat rep l.length l

/-- Fueled digit extraction (structural recursion so that terms reduce
in the kernel); the fuel never runs out when it exceeds `n`. -/
def natDigitsF : Nat → Nat → Str
  | 0, _ => []
  | fuel + 1, n =>
    if n < 10 then [Nat.digitChar n]
    else natDigitsF fuel (n / 10) ++ [Nat.digitChar (n % 10)]

/-- Decimal digits of a natural number, most significant first; models how
JavaScript prints a nonnegative integer inside a template literal. -/
def natDigits (n : Nat) : Str := natDigitsF (n + 1) n

/-- Numeric value of a decimal digit character (inverse of `Nat.digitChar`
on digits). -/
def digitVal (c : Char) : Nat := c.toNat - 48

/-- Value of a most-significant-first digit list. -/
def digitsVal (l : Str) : Nat := l.foldl (fun a c => 10 * a + digitVal c) 0

theorem digitsVal_append_singleton (l : Str) (c : Char) :
    digitsVal (l ++ [c]) = 10 * digitsVal l + digitVal c := by
  simp [digitsVal, List.foldl_append]

theorem digitVal_digitChar {r : Nat} (h : r < 10) :
    digitVal (Nat.digitChar r) = r := by
  interval_cases r <;> decide

theorem natDigitsF_succ (f n : Nat) : natDigitsF (f + 1) n =
    if n < 10 then [Nat.digitChar n]
    else natDigitsF f (n / 10) ++ [Nat.digitChar (n % 10)] := rfl

theorem digitsVal_natDigitsF :
    ∀ fuel n, n < fuel → digitsVal (natDigitsF fuel n) = n := by
  intro fuel
  induction fuel with
  | zero => intro n h; omega
  | succ f ih =>
    intro n h
    rw [natDigitsF_succ]
    by_cases h10 : n < 10
    · rw [if_pos h10]
      have hone : digitsVal [Nat.digitChar n] = digitVal (Nat.digitChar n) := by
        simp [digitsVal, digitVal]
      rw [hone, digitVal_digitChar h10]
    · rw [if_neg h10, digitsVal_append_singleton]
      have hlt : n / 10 < n := Nat.div_lt_self (by omega) (by omega)
      rw [ih (n / 10) (by omega), digitVal_digitChar (Nat.mod_lt n (by omega))]
      omega

theorem digitsVal_natDigits (n : Nat) : digitsVal (natDigits n) = n :=
  digitsVal_natDigitsF (n + 1) n (by omega)

theorem natDigits_injective : Function.Injective natDigits := by
  intro a b h
  have := digitsVal_natDigits a
  rw [h, digitsVal_natDigits] at this
  omega

/-- A stable element identifier as produced at the `` `_${idCounter.value++}` ``
sites of `createHtmlFactory`. -/
def mkId (n : Nat) : String := String.mk ('_' :: natDigits n)

theorem mkId_injective : Function.Injective mkId := by
  intro a b h
  apply natDigits_injective
  have : ('_' :: natDigits a) = ('_' :: natDigits b) := congrArg String.data h
  exact List.cons_injective this

/-- Character class of the regex `\w` (ASCII word character). -/
def isWordChar (c : Char) : Bool := c.isAlphanum || c == '_'

/-- Character class of the regex `\s`, restricted to the ASCII whitespace
characters that occur in templates. -/
def isWsChar (c : Char) : Bool :=
  c == ' ' || c == '\t' || c == '\n' || c == '\r' || c == '\x0b' || c == '\x0c'

theorem not_word_of_ws {c : Char} (h : isWsChar c = true) : isWordChar c = false := by
  simp only [isWsChar, Bool.or_eq_true, beq_iff_eq] at h
  rcases h with ((((h | h) | h) | h) | h) | h <;> subst h <;> decide

/-- The five HTML replacements of `escapeHtml` (src/main.ts line 191); the
factory's `textContent`/`innerHTML` escaping trick and linkedom's
serializer perform the same five substitutions (the html-escaper
package), so this single function models all escaping sites. -/
def escapeChar (c : Char) : Str :=
  if c == '&' then cs ("&amp;")
  else if c == '<' then cs ("&lt;")
  else if c == '>' then cs ("&gt;")
  else if c == '"' then cs ("&quot;")
  else if c == '\'' then cs ("&#39;")
  else [c]

def escapeHtml (s : Str) : Str := s.flatMap escapeChar

/-! ## The expression analyzer

`analyzeRender` (src/main.ts lines 107–181) parses the render method and
walks it with Babel.  We embed the Babel AST shapes the analyzer
inspects as the inductive `Expr`: named member accesses, calls, arrow
functions, update/assignment expressions, tagged templates, and an
opaque constructor each for identifiers, literals and binary/logical
operators. -/

inductive Expr where
  /-- `ThisExpression`. -/
  | this'
  /-- `MemberExpression` with a named (non-computed) property. -/
  | member (obj : Expr) (prop : String)
  /-- `Identifier`. -/
  | ident (n : String)
  /-- Any literal; `raw` is its source text. -/
  | lit (raw : String)
  /-- `CallExpression`. -/
  | call (callee : Expr) (args : List Expr)
  /-- `ArrowFunctionExpression` / `FunctionExpression` with an expression body. -/
  | arrowFn (params : List String) (body : Expr)
  /-- `UpdateExpression` (`++` or `--`; the analyzer never inspects the operator). -/
  | update (arg : Expr)
  /-- `AssignmentExpression` (plain or compound). -/
  | assign (l r : Expr)
  /-- `BinaryExpression` / `LogicalExpression` with operator text `op`. -/
  | binop (op : String) (l r : Expr)
  /-- `TaggedTemplateExpression` whose tag is the identifier `tag`;
  `quasis` are the raw static segments, `exprs` the interpolations. -/
  | template (tag : String) (quasis : List Str) (exprs : List Expr)

/-- Interleaves quasis and printed interpolations for template re-printing. -/
def printTemplate : List Str → List String → String
  | [], _ => ""
  | q :: qs, [] => String.mk q ++ printTemplate qs []
  | q :: qs, e :: es => String.mk q ++ "$\x7b" ++ e ++ "\x7d" ++ printTemplate qs es

mutual
/-- Re-printing of an AST node; models `@babel/generator`'s `generate`.
The exact layout is a fixed deterministic convention. -/
def printE : Expr → String
  | .this' => "this"
  | .member o p => printE o ++ "." ++ p
  | .ident n => n
  | .lit raw => raw
  | .call c args => printE c ++ "(" ++ String.intercalate (", ") (printList args) ++ ")"
  | .arrowFn ps b => "(" ++ String.intercalate (", ") ps ++ ") => " ++ printE b
  | .update a => printE a ++ "++"
  | .assign l r => printE l ++ " = " ++ printE r
  | .binop op l r => printE l ++ " " ++ op ++ " " ++ printE r
  | .template tag qs es =>
    tag ++ "\x60" ++ printTemplate qs (printList es) ++ "\x60"
/-- Pointwise printing of a node list. -/
def printList : List Expr → List String
  | [] => []
  | e :: es => printE e :: printList es
end

/-- The write-target test of `analyzeRender` (src/main.ts lines 146–151):
a `this.<field>` node that is the argument of an `UpdateExpression` or
the left-hand side of an `AssignmentExpression`. -/
def writeTarget : Expr → Option String
  | .member .this' f => some f
  | _ => none

mutual
/-- The `MemberExpression` walk of `analyzeRender` (src/main.ts lines
135–157): collect, in document order, every field read through `this`,
and the subset of those that are written. -/
def scanSignals : Expr → List String × List String
  | .this' => ([], [])
  | .member o p =>
    match o with
    | .this' => ([p], [])
    | _ => scanSignals o
  | .ident _ => ([], [])
  | .lit _ => ([], [])
  | .call c args =>
    let (s, w) := scanSignals c
    let (s', w') := scanSignalsList args
    (s ++ s', w ++ w')
  | .arrowFn _ b => scanSignals b
  | .update a =>
    let (s, w) := scanSignals a
    (s, w ++ (writeTarget a).toList)
  | .assign l r =>
    let (s, w) := scanSignals l
    let (s', w') := scanSignals r
    (s ++ s', (writeTarget l).toList ++ w ++ w')
  | .binop _ l r =>
    let (s, w) := scanSignals l
    let (s', w') := scanSignals r
    (s ++ s', w ++ w')
  | .template _ _ es => scanSignalsList es
def scanSignalsList : List Expr → List String × List String
  | [] => ([], [])
  | e :: es =>
    let (s, w) := scanSignals e
    let (s', w') := scanSignalsList es
    (s ++ s', w ++ w')
end

/-- Result record of `analyzeAsyncExpression` (src/main.ts lines 65–103). -/
structure AsyncInfo where
  isAsync : Bool
  promiseSource : Option String
  thenCallback : Option String
  catchCallback : Option String
deriving Repr, DecidableEq

/-- Models `generate(node).code` applied to `current.arguments[0]`:
Babel's printer emits nothing for an absent node, so a zero-argument
call re-prints its (missing) first argument as the empty string. -/
def genOpt : Option Expr → String
  | some e => printE e
  | none => ""

/-- First step of `analyzeAsyncExpression` (src/main.ts lines 76–84):
peel an outermost `.catch(fn)` call, remembering the re-printed callback. -/
def asyncPeel (e : Expr) : Option String × Expr :=
  match e with
  | .call (.member o p) args =>
    if p == "catch" then (some (genOpt args.head?), o) else (none, e)
  | _ => (none, e)

/-- Second step of `analyzeAsyncExpression` (src/main.ts lines 86–102):
test for `.then(fn)`; the expression is async exactly when this test
succeeds (`isAsync := thenCallback !== null`). -/
def asyncThen (catchCb : Option String) (cur : Expr) : AsyncInfo :=
  match cur with
  | .call (.member o p) args =>
    if p == "then" then
      { isAsync := true
        promiseSource := some (printE o)
        thenCallback := some (genOpt args.head?)
        catchCallback := catchCb }
    else
      { isAsync := false, promiseSource := none, thenCallback := none
        catchCallback := catchCb }
  | _ =>
    { isAsync := false, promiseSource := none, thenCallback := none
      catchCallback := catchCb }

/-- `analyzeAsyncExpression` (src/main.ts lines 65–103). -/
def analyzeAsyncExpression (e : Expr) : AsyncInfo :=
  asyncThen (asyncPeel e).1 (asyncPeel e).2

/-- Name test of the regex capture `(on\w+)`: at least three characters
starting with `on` (the word characters were already selected by the
caller). -/
def eventMatchName (l : Str) : Option Str :=
  match l with
  | c1 :: c2 :: c3 :: r =>
    if c1 = 'o' ∧ c2 = 'n' then some (c1 :: c2 :: c3 :: r) else none
  | _ => none

/-- After the trailing `=` has been consumed (scanning backwards): the
maximal word-character run before it must be preceded by a whitespace
character and must spell an `on<word>` name. -/
def eventMatchAfterEq (r2 : Str) : Option Str :=
  match r2.dropWhile isWordChar with
  | [] => none
  | w :: _ =>
    if isWsChar w then eventMatchName ((r2.takeWhile isWordChar).reverse) else none

/-- The event-attribute regex `/\s(on\w+)=\s*$/` of `analyzeRender`
(src/main.ts line 161), implemented as a scan from the end of the
string.  Returns the captured attribute name. -/
def eventMatch (s : Str) : Option Str :=
  match (s.reverse).dropWhile isWsChar with
  | [] => none
  | d :: r2 => if d = '=' then eventMatchAfterEq r2 else none

/-- One classification record (interface `ExprAnalysis`, src/main.ts
lines 44–56). -/
structure ExprAnalysis where
  signals : List String
  writes : List String
  isFunction : Bool
  isEvent : Bool
  eventName : Option Str
  source : String
  bodySource : Option String
  isAsync : Bool
  promiseSource : Option String
  thenCallback : Option String
  catchCallback : Option String
deriving Repr, DecidableEq

/-- The per-interpolation classification step of `analyzeRender`
(src/main.ts lines 123–175): `quasi` is the raw static text preceding the
slot (`quasis[i].value.raw`). -/
def classifySlot (quasi : Str) (e : Expr) : ExprAnalysis :=
  let isFunction : Bool := match e with | .arrowFn _ _ => true | _ => false
  let ai := analyzeAsyncExpression e
  let sw := if ai.isAsync then (([] : List String), ([] : List String)) else scanSignals e
  let em := eventMatch quasi
  { signals := sw.1
    writes := sw.2
    isFunction := isFunction
    isEvent := isFunction && em.isSome
    eventName := em
    source := printE e
    bodySource := match e with | .arrowFn _ b => some (printE b) | _ => none
    isAsync := ai.isAsync
    promiseSource := ai.promiseSource
    thenCallback := ai.thenCallback
    catchCallback := ai.catchCallback }

mutual
/-- Babel's pre-order traversal restricted to the
`TaggedTemplateExpression` visitor of `analyzeRender`: every template in
the tree, each listed before the templates nested below it, children
left to right; templates whose tag is not `html` contribute no entry but
are still descended into. -/
def collectTemplates : Expr → List (List Str × List Expr)
  | .this' => []
  | .member o _ => collectTemplates o
  | .ident _ => []
  | .lit _ => []
  | .call c args => collectTemplates c ++ collectTemplatesList args
  | .arrowFn _ b => collectTemplates b
  | .update a => collectTemplates a
  | .assign l r => collectTemplates l ++ collectTemplates r
  | .binop _ l r => collectTemplates l ++ collectTemplates r
  | .template tag qs es =>
    (if tag == "html" then [(qs, es)] else []) ++ collectTemplatesList es
/-- Traversal of a node list in order. -/
def collectTemplatesList : List Expr → List (List Str × List Expr)
  | [] => []
  | e :: es => collectTemplates e ++ collectTemplatesList es
end

/-- Classification of the slots of one template invocation, in slot
order. -/
def classifySlots (qs : List Str) (es : List Expr) : List ExprAnalysis :=
  es.enum.map (fun p => classifySlot ((qs.get? p.1).getD []) p.2)

/-- `analyzeRender` (src/main.ts lines 107–181): one classification per
interpolation of every `html`-tagged template in the render method, in
Babel traversal order.  The render method is represented by its body
expression. -/
def analyzeRender (render : Expr) : List ExprAnalysis :=
  (collectTemplates render).flatMap (fun t => classifySlots t.1 t.2)

mutual
/-- The interpolations of every `html`-tagged template in source-position
order: an interpolation's own start precedes the starts of any template
nested inside it. -/
def slotsSourceOrder : Expr → List Expr
  | .this' => []
  | .member o _ => slotsSourceOrder o
  | .ident _ => []
  | .lit _ => []
  | .call c args => slotsSourceOrder c ++ slotsSourceOrderList args
  | .arrowFn _ b => slotsSourceOrder b
  | .update a => slotsSourceOrder a
  | .assign l r => slotsSourceOrder l ++ slotsSourceOrder r
  | .binop _ l r => slotsSourceOrder l ++ slotsSourceOrder r
  | .template tag _ es =>
    if tag == "html" then slotsWithSelf es else slotsSourceOrderList es
/-- Slots of an `html` template in source order: each interpolation
followed by the slots nested inside it. -/
def slotsWithSelf : List Expr → List Expr
  | [] => []
  | e :: es => (e :: slotsSourceOrder e) ++ slotsWithSelf es
/-- Traversal of a node list in order. -/
def slotsSourceOrderList : List Expr → List Expr
  | [] => []
  | e :: es => slotsSourceOrder e ++ slotsSourceOrderList es
end

example :
    analyzeRender (.template ("html") [cs ("<span>"), cs ("</span>")]
      [.member .this' ("count")]) =
    [{ signals := ["count"], writes := [], isFunction := false
       isEvent := false, eventName := none, source := "this.count"
       bodySource := none, isAsync := false, promiseSource := none
       thenCallback := none, catchCallback := none }] := by decide

example :
    (analyzeRender (.template ("html") [cs ("<button onclick="), cs (">+</button>")]
      [.arrowFn [] (.update (.member .this' ("count")))])).map
      (fun a => (a.isEvent, a.eventName, a.writes)) =
    [(true, some (cs ("onclick")), ["count"])] := by decide

/-! ## Helper lemmas on takeWhile/dropWhile decompositions -/

theorem dropWhile_append_all {p : Char → Bool} {l m : Str}
    (h : ∀ c ∈ l, p c = true) : (l ++ m).dropWhile p = m.dropWhile p := by
  induction l with
  | nil => simp
  | cons c rest ih =>
    have hc : p c = true := h c (by simp)
    simp only [List.cons_append, List.dropWhile_cons, hc, if_pos]
    exact ih (fun x hx => h x (by simp [hx]))

theorem takeWhile_append_all {p : Char → Bool} {l m : Str}
    (h : ∀ c ∈ l, p c = true) : (l ++ m).takeWhile p = l ++ m.takeWhile p := by
  induction l with
  | nil => simp
  | cons c rest ih =>
    have hc : p c = true := h c (by simp)
    simp only [List.cons_append, List.takeWhile_cons, hc, if_pos]
    rw [ih (fun x hx => h x (by simp [hx]))]

/-! ## Claim C2: classification count and order -/

/-- Total slot count of a list of collected templates. -/
def sumT (l : List (List Str × List Expr)) : Nat :=
  (l.map (fun t => t.2.length)).sum

theorem sumT_append (a b : List (List Str × List Expr)) :
    sumT (a ++ b) = sumT a + sumT b := by
  simp [sumT]

mutual
theorem sumT_collect (e : Expr) :
    sumT (collectTemplates e) = (slotsSourceOrder e).length := by
  cases e with
  | this' => simp [collectTemplates, slotsSourceOrder, sumT]
  | member o p => simpa [collectTemplates, slotsSourceOrder] using sumT_collect o
  | ident n => simp [collectTemplates, slotsSourceOrder, sumT]
  | lit raw => simp [collectTemplates, slotsSourceOrder, sumT]
  | call c args =>
    simp [collectTemplates, slotsSourceOrder, sumT_append,
      sumT_collect c, sumT_collectList args]
  | arrowFn ps b => simpa [collectTemplates, slotsSourceOrder] using sumT_collect b
  | update a => simpa [collectTemplates, slotsSourceOrder] using sumT_collect a
  | assign l r =>
    simp [collectTemplates, slotsSourceOrder, sumT_append,
      sumT_collect l, sumT_collect r]
  | binop op l r =>
    simp [collectTemplates, slotsSourceOrder, sumT_append,
      sumT_collect l, sumT_collect r]
  | template tag qs es =>
    by_cases htag : tag == "html"
    · have h := sumT_withSelf es
      have h2 : sumT [(qs, es)] = es.length := by simp [sumT]
      simp only [collectTemplates, slotsSourceOrder, htag, if_true, sumT_append, h2]
      omega
    · simp [collectTemplates, slotsSourceOrder, htag, sumT_collectList es]
theorem sumT_withSelf (es : List Expr) :
    es.length + sumT (collectTemplatesList es) = (slotsWithSelf es).length := by
  cases es with
  | nil => simp [collectTemplatesList, slotsWithSelf, sumT]
  | cons e rest =>
    have h1 := sumT_collect e
    have h2 := sumT_withSelf rest
    simp only [collectTemplatesList, slotsWithSelf, sumT_append,
      List.length_cons, List.length_append]
    omega
theorem sumT_collectList (es : List Expr) :
    sumT (collectTemplatesList es) = (slotsSourceOrderList es).length := by
  cases es with
  | nil => simp [collectTemplatesList, slotsSourceOrderList, sumT]
  | cons e rest =>
    simp [collectTemplatesList, slotsSourceOrderList, sumT_append,
      sumT_collect e, sumT_collectList rest]
end

theorem classifySlots_length (qs : List Str) (es : List Expr) :
    (classifySlots qs es).length = es.length := by
  simp [classifySlots, List.enum_length]

theorem classifySlots_sources (qs : List Str) (es : List Expr) :
    (classifySlots qs es).map (fun a => a.source) = es.map printE := by
  unfold classifySlots
  rw [List.map_map]
  have : ((fun a : ExprAnalysis => a.source) ∘
      fun p : Nat × Expr => classifySlot ((qs.get? p.1).getD []) p.2) =
      (printE ∘ Prod.snd) := by
    funext p
    simp [classifySlot]
  rw [this, ← List.map_map, List.enum_map_snd]

theorem analyzeRender_length_eq_sumT (e : Expr) :
    (analyzeRender e).length = sumT (collectTemplates e) := by
  unfold analyzeRender sumT
  have hf : (List.length ∘ fun t : List Str × List Expr => classifySlots t.1 t.2) =
      fun t : List Str × List Expr => t.2.length := by
    funext t
    simp [Function.comp, classifySlots_length]
  rw [List.length_flatMap, hf]

/-- A nested-template render method: the outer template's second slot
starts, in the source, after the inner template's slot. -/
def cex2Render : Expr :=
  .template ("html") [cs ("<ul>"), cs ("</ul>"), cs ("")]
    [ .call (.member (.ident ("xs")) ("map"))
        [.arrowFn ["x"] (.template ("html") [cs ("<li>"), cs ("</li>")] [.ident ("x")])]
    , .member .this' ("b") ]

/-- Claim C2, counterexample.  The claim asserts that the classifications
returned by `analyzeRender` appear in the source order of the
interpolations.  For `cex2Render` — an outer `html` template whose first
slot contains a nested `html` template and whose second slot follows it —
the analyzer emits all of the outer invocation's classifications before
the nested one's (Babel's pre-order traversal pushes a template's slots
when the template node is visited), so the classification order differs
from source-position order. -/
theorem C2_counterexample :
    (analyzeRender cex2Render).map (fun a => a.source) ≠
      (slotsSourceOrder cex2Render).map printE := by decide

/-- Claim C2, amended: the classification sequence has exactly one entry
per interpolation across all `html` template invocations (same total
count as the source-order enumeration), grouped by template invocation
in traversal order; within one invocation the entries are positionally
aligned with that invocation's slots (the i-th classification re-prints
the i-th interpolation). -/
theorem C2_amended (e : Expr) (qs : List Str) (es : List Expr) :
    (analyzeRender e).length = (slotsSourceOrder e).length ∧
    (analyzeRender e).map (fun a => a.source) =
      (collectTemplates e).flatMap (fun t => t.2.map printE) ∧
    (classifySlots qs es).map (fun a => a.source) = es.map printE := by
  refine ⟨?_, ?_, classifySlots_sources qs es⟩
  · rw [analyzeRender_length_eq_sumT, sumT_collect]
  · unfold analyzeRender
    rw [List.map_flatMap]
    congr 1
    funext t
    exact classifySlots_sources t.1 t.2

/-! ## Claim C8: the event-attribute pattern -/

/-- Every character of `l` satisfies `p` (stated executably). -/
def allP (p : Char → Bool) (l : Str) : Prop := l.all p = true

theorem allP_iff {p : Char → Bool} {l : Str} :
    allP p l ↔ ∀ c ∈ l, p c = true := by
  simp [allP, List.all_eq_true]

instance (p : Char → Bool) (l : Str) : Decidable (allP p l) := by
  unfold allP
  infer_instance

/-- An attribute name of the shape `on<word>`: starts with `on`, at least
one more character, all word characters. -/
def onName (nm : Str) : Prop :=
  (∃ c r, nm = 'o' :: 'n' :: c :: r) ∧ allP isWordChar nm

/-- Modelled from the spec (claim C8's wording): the static text ends
with an attribute name followed by `=` and optional trailing whitespace
— with no requirement on what precedes the name. -/
def endsWithOnAttr (s nm : Str) : Prop :=
  ∃ a t, s = a ++ nm ++ '=' :: t ∧ allP isWsChar t

/-- The pattern the code actually implements (`/\s(on\w+)=\s*$/`): as
`endsWithOnAttr` but the name must be immediately preceded by a
whitespace character. -/
def endsWithOnAttrWs (s nm : Str) : Prop :=
  ∃ a w t, s = a ++ w :: (nm ++ '=' :: t) ∧ isWsChar w = true ∧ allP isWsChar t



theorem eventMatch_spec_complete {s nm : Str} (h : eventMatch s = some nm) :
    onName nm ∧ endsWithOnAttrWs s nm := by
  cases hD : (s.reverse).dropWhile isWsChar with
  | nil =>
    have hx : eventMatch s = none := by unfold eventMatch; rw [hD]
    rw [hx] at h
    exact absurd h (by simp)
  | cons d r2 =>
    have hstep : eventMatch s = if d = '=' then eventMatchAfterEq r2 else none := by
      unfold eventMatch
      rw [hD]
    rw [hstep] at h
    by_cases hd : d = '='
    case neg => rw [if_neg hd] at h; exact absurd h (by simp)
    rw [if_pos hd] at h
    cases hR : r2.dropWhile isWordChar with
    | nil =>
      have hx : eventMatchAfterEq r2 = none := by unfold eventMatchAfterEq; rw [hR]
      rw [hx] at h
      exact absurd h (by simp)
    | cons w rrest =>
      have hstep2 : eventMatchAfterEq r2 =
          if isWsChar w = true then eventMatchName ((r2.takeWhile isWordChar).reverse)
          else none := by
        unfold eventMatchAfterEq
        rw [hR]
      rw [hstep2] at h
      by_cases hw : isWsChar w = true
      case neg => rw [if_neg hw] at h; exact absurd h (by simp)
      rw [if_pos hw] at h
      cases hN : (r2.takeWhile isWordChar).reverse with
      | nil => rw [hN] at h; simp [eventMatchName] at h
      | cons c1 l1 =>
        cases l1 with
        | nil => rw [hN] at h; simp [eventMatchName] at h
        | cons c2 l2 =>
          cases l2 with
          | nil => rw [hN] at h; simp [eventMatchName] at h
          | cons c3 r =>
            rw [hN] at h
            simp only [eventMatchName] at h
            by_cases hon : c1 = 'o' ∧ c2 = 'n'
            case neg => rw [if_neg hon] at h; exact absurd h (by simp)
            rw [if_pos hon] at h
            simp only [Option.some.injEq] at h
            have hnm : nm = c1 :: c2 :: c3 :: r := h.symm
            have hname : (r2.takeWhile isWordChar).reverse = nm := by rw [hN, hnm]
            have hword : allP isWordChar nm := by
              rw [allP_iff]
              intro x hx
              rw [← hname, List.mem_reverse] at hx
              exact List.mem_takeWhile_imp hx
            refine ⟨⟨⟨c3, r, by rw [hnm, hon.1, hon.2]⟩, hword⟩, ?_⟩
            set T := (s.reverse).takeWhile isWsChar with hT
            have e1 : s.reverse = T ++ (d :: r2) := by
              rw [hT, ← hD]
              exact (List.takeWhile_append_dropWhile _ _).symm
            have e2 : r2 = (r2.takeWhile isWordChar) ++ (w :: rrest) := by
              rw [← hR]
              exact (List.takeWhile_append_dropWhile _ _).symm
            have hs : s = rrest.reverse ++ w :: (nm ++ '=' :: T.reverse) := by
              have e3 := congrArg List.reverse e1
              rw [List.reverse_reverse] at e3
              conv_lhs => rw [e3]
              rw [e2, hd]
              simp only [List.reverse_append, List.reverse_cons, List.append_assoc,
                List.nil_append, List.cons_append, List.singleton_append]
              rw [hname]
            refine ⟨rrest.reverse, w, T.reverse, hs, hw, ?_⟩
            rw [allP_iff]
            intro x hx
            rw [List.mem_reverse, hT] at hx
            exact List.mem_takeWhile_imp hx

theorem eventMatch_eq_of_spec {s nm : Str} (h1 : onName nm) (h2 : endsWithOnAttrWs s nm) :
    eventMatch s = some nm := by
  obtain ⟨⟨c, r, hnm⟩, hword⟩ := h1
  obtain ⟨a, w, t, hs, hw, ht⟩ := h2
  subst hs
  have htw : ∀ x ∈ t.reverse, isWsChar x = true :=
    fun x hx => (allP_iff.mp ht) x ((List.mem_reverse).mp hx)
  have hrev : (a ++ w :: (nm ++ '=' :: t)).reverse =
      t.reverse ++ '=' :: (nm.reverse ++ (w :: a.reverse)) := by
    simp [List.reverse_append, List.reverse_cons, List.append_assoc]
  have hdrop : ((a ++ w :: (nm ++ '=' :: t)).reverse).dropWhile isWsChar =
      '=' :: (nm.reverse ++ (w :: a.reverse)) := by
    rw [hrev, dropWhile_append_all htw, List.dropWhile_cons]
    simp [isWsChar]
  have hwordrev : ∀ x ∈ nm.reverse, isWordChar x = true :=
    fun x hx => (allP_iff.mp hword) x ((List.mem_reverse).mp hx)
  have hwn : isWordChar w = false := not_word_of_ws hw
  have hdropw : (nm.reverse ++ (w :: a.reverse)).dropWhile isWordChar =
      w :: a.reverse := by
    rw [dropWhile_append_all hwordrev, List.dropWhile_cons]
    simp [hwn]
  have htakew : (nm.reverse ++ (w :: a.reverse)).takeWhile isWordChar = nm.reverse := by
    rw [takeWhile_append_all hwordrev, List.takeWhile_cons]
    simp [hwn]
  have hA : eventMatch (a ++ w :: (nm ++ '=' :: t)) =
      eventMatchAfterEq (nm.reverse ++ (w :: a.reverse)) := by
    unfold eventMatch
    rw [hdrop]
    rfl
  have hB : eventMatchAfterEq (nm.reverse ++ (w :: a.reverse)) =
      if isWsChar w = true then
        eventMatchName ((((nm.reverse ++ (w :: a.reverse))).takeWhile isWordChar).reverse)
      else none := by
    unfold eventMatchAfterEq
    rw [hdropw]
  rw [hA, hB, if_pos hw, htakew, List.reverse_reverse, hnm]
  simp [eventMatchName]

/-- A render method whose event handler's attribute name is not preceded
by whitespace: the static text before the slot is `<button id="x"onclick=`. -/
def cex8Render : Expr :=
  .template ("html") [cs ("<button id=\"x\"onclick="), cs (">x</button>")]
    [.arrowFn [] (.update (.member .this' ("count")))]

/-- Claim C8, counterexample.  The claim asserts `isEvent` is true
exactly when the expression is a function literal and the preceding
static text ends with an attribute name matching `on<word>=` (optional
trailing whitespace).  In `cex8Render` the slot is a function literal
and the preceding text `<button id="x"onclick=` does end with the
attribute name `onclick=` (`endsWithOnAttr` holds), yet the analyzer
classifies `isEvent = false`: the implemented regex `/\s(on\w+)=\s*$/`
additionally requires a whitespace character before the name. -/
theorem C8_counterexample :
    ((analyzeRender cex8Render).map (fun a => a.isEvent) = [false]) ∧
    ((analyzeRender cex8Render).map (fun a => a.isFunction) = [true]) ∧
    onName (cs ("onclick")) ∧
    endsWithOnAttr (cs ("<button id=\"x\"onclick=")) (cs ("onclick")) := by
  refine ⟨by decide, by decide, ⟨⟨'c', cs ("lick"), by decide⟩, by decide⟩, ?_⟩
  exact ⟨cs ("<button id=\"x\""), [], by decide, by decide⟩

/-- Claim C8, amended: `isEvent` is true exactly when the expression is
a function literal and the preceding static text ends with a whitespace
character, then an attribute name of the form `on<word>`, then `=` and
optional trailing whitespace (the code's `/\s(on\w+)=\s*$/`; the claim's
phrasing omits the required leading whitespace).  When the pattern
matches, `eventName` is exactly the matched attribute name. -/
theorem C8_amended (quasi : Str) (e : Expr) :
    ((classifySlot quasi e).isEvent = true ↔
      ((classifySlot quasi e).isFunction = true ∧
        ∃ nm, onName nm ∧ endsWithOnAttrWs quasi nm)) ∧
    (∀ nm, eventMatch quasi = some nm →
      (classifySlot quasi e).eventName = some nm ∧
        onName nm ∧ endsWithOnAttrWs quasi nm) := by
  have hev : (classifySlot quasi e).isEvent
      = ((classifySlot quasi e).isFunction && (eventMatch quasi).isSome) := rfl
  have hen : (classifySlot quasi e).eventName = eventMatch quasi := rfl
  constructor
  · rw [hev]
    constructor
    · intro hx
      rw [Bool.and_eq_true] at hx
      obtain ⟨nm, hnm⟩ := Option.isSome_iff_exists.mp hx.2
      have hsp := eventMatch_spec_complete hnm
      exact ⟨hx.1, nm, hsp.1, hsp.2⟩
    · rintro ⟨hf, nm, h1, h2⟩
      rw [hf, eventMatch_eq_of_spec h1 h2]
      rfl
  · intro nm hm
    have hsp := eventMatch_spec_complete hm
    exact ⟨by rw [hen, hm], hsp.1, hsp.2⟩

/-- Witness for `C8_amended` at a concrete input: the slot of a template
whose preceding static text is `<button onclick=` and whose value is an
arrow function is classified as an event named `onclick`. -/
theorem C8_amended_witness :
    (classifySlot (cs ("<button onclick=")) (.arrowFn [] (.lit ("1")))).isEvent = true ∧
    (classifySlot (cs ("<button onclick=")) (.arrowFn [] (.lit ("1")))).eventName
      = some (cs ("onclick")) ∧
    onName (cs ("onclick")) ∧
    endsWithOnAttrWs (cs ("<button onclick=")) (cs ("onclick")) := by
  have h := C8_amended (cs ("<button onclick=")) (.arrowFn [] (.lit ("1")))
  have hm : eventMatch (cs ("<button onclick=")) = some (cs ("onclick")) := by decide
  have h2 := h.2 (cs ("onclick")) hm
  refine ⟨?_, h2.1, h2.2.1, h2.2.2⟩
  exact h.1.mpr ⟨by decide, cs ("onclick"), h2.2.1, h2.2.2⟩

/-! ## Claim C4: async-chain detection -/

/-- Does the outermost call invoke a property named `then`? -/
def headIsThen : Expr → Bool
  | .call (.member _ p) _ => p == "then"
  | _ => false

/-- Modelled from the spec (claim C4's shape): the expression's
outermost call is `.then(...)`, optionally wrapped by `.catch(...)`,
around an arbitrary receiver. -/
def specAsyncShape : Expr → Bool
  | .call (.member o p) _ => if p == "catch" then headIsThen o else p == "then"
  | _ => false

theorem asyncThen_isAsync (cb : Option String) (cur : Expr) :
    (asyncThen cb cur).isAsync = headIsThen cur := by
  cases cur with
  | call callee args =>
    cases callee with
    | member o p =>
      by_cases hp : p == "then"
      · simp [asyncThen, headIsThen, hp]
      · simp [asyncThen, headIsThen, hp]
    | this' => simp [asyncThen, headIsThen]
    | ident n => simp [asyncThen, headIsThen]
    | lit raw => simp [asyncThen, headIsThen]
    | call c a => simp [asyncThen, headIsThen]
    | arrowFn ps b => simp [asyncThen, headIsThen]
    | update a => simp [asyncThen, headIsThen]
    | assign l r => simp [asyncThen, headIsThen]
    | binop op l r => simp [asyncThen, headIsThen]
    | template t q es => simp [asyncThen, headIsThen]
  | this' => simp [asyncThen, headIsThen]
  | member o p => simp [asyncThen, headIsThen]
  | ident n => simp [asyncThen, headIsThen]
  | lit raw => simp [asyncThen, headIsThen]
  | arrowFn ps b => simp [asyncThen, headIsThen]
  | update a => simp [asyncThen, headIsThen]
  | assign l r => simp [asyncThen, headIsThen]
  | binop op l r => simp [asyncThen, headIsThen]
  | template t q es => simp [asyncThen, headIsThen]

theorem analyzeAsync_isAsync_eq_shape (e : Expr) :
    (analyzeAsyncExpression e).isAsync = specAsyncShape e := by
  unfold analyzeAsyncExpression
  rw [asyncThen_isAsync]
  cases e with
  | call callee args =>
    cases callee with
    | member o p =>
      by_cases hp : p == "catch"
      · simp [asyncPeel, specAsyncShape, hp]
      · simp [asyncPeel, specAsyncShape, hp, headIsThen]
    | this' => simp [asyncPeel, specAsyncShape, headIsThen]
    | ident n => simp [asyncPeel, specAsyncShape, headIsThen]
    | lit raw => simp [asyncPeel, specAsyncShape, headIsThen]
    | call c a => simp [asyncPeel, specAsyncShape, headIsThen]
    | arrowFn ps b => simp [asyncPeel, specAsyncShape, headIsThen]
    | update a => simp [asyncPeel, specAsyncShape, headIsThen]
    | assign l r => simp [asyncPeel, specAsyncShape, headIsThen]
    | binop op l r => simp [asyncPeel, specAsyncShape, headIsThen]
    | template t q es => simp [asyncPeel, specAsyncShape, headIsThen]
  | this' => simp [asyncPeel, specAsyncShape, headIsThen]
  | member o p => simp [asyncPeel, specAsyncShape, headIsThen]
  | ident n => simp [asyncPeel, specAsyncShape, headIsThen]
  | lit raw => simp [asyncPeel, specAsyncShape, headIsThen]
  | arrowFn ps b => simp [asyncPeel, specAsyncShape, headIsThen]
  | update a => simp [asyncPeel, specAsyncShape, headIsThen]
  | assign l r => simp [asyncPeel, specAsyncShape, headIsThen]
  | binop op l r => simp [asyncPeel, specAsyncShape, headIsThen]
  | template t q es => simp [asyncPeel, specAsyncShape, headIsThen]

/-- Claim C4.  (1) A slot is classified `isAsync` exactly when its
outermost shape is a `.then(...)` call optionally wrapped by a
`.catch(...)` call (`specAsyncShape`, written from the claim's words);
(2) for a bare `.then(fn)` chain the classification re-prints the
receiver and the callback, with no catch callback; (3) adding an outer
`.catch(fn)` re-prints all three sub-expressions; (4) for any slot
classified async, signal/write scanning was skipped: both lists are
empty. -/
theorem C4_theorem (e : Expr) (r f g : Expr) (fs gs : List Expr)
    (quasi : Str) (e' : Expr) :
    (analyzeAsyncExpression e).isAsync = specAsyncShape e ∧
    analyzeAsyncExpression (.call (.member r ("then")) (f :: fs)) =
      { isAsync := true, promiseSource := some (printE r)
        thenCallback := some (printE f), catchCallback := none } ∧
    analyzeAsyncExpression
        (.call (.member (.call (.member r ("then")) (f :: fs)) ("catch")) (g :: gs)) =
      { isAsync := true, promiseSource := some (printE r)
        thenCallback := some (printE f), catchCallback := some (printE g) } ∧
    ((classifySlot quasi e').isAsync = true →
      (classifySlot quasi e').signals = [] ∧ (classifySlot quasi e').writes = []) := by
  refine ⟨analyzeAsync_isAsync_eq_shape e, rfl, rfl, ?_⟩
  intro h
  have hiso : (classifySlot quasi e').isAsync = (analyzeAsyncExpression e').isAsync := rfl
  rw [hiso] at h
  have hs : (classifySlot quasi e').signals =
      (if (analyzeAsyncExpression e').isAsync then (([] : List String), ([] : List String))
       else scanSignals e').1 := rfl
  have hw : (classifySlot quasi e').writes =
      (if (analyzeAsyncExpression e').isAsync then (([] : List String), ([] : List String))
       else scanSignals e').2 := rfl
  rw [hs, hw, h]
  exact ⟨rfl, rfl⟩

/-- A concrete async slot: `fetchX().then((d) => d)`. -/
def cexAsync : Expr :=
  .call (.member (.call (.ident ("fetchX")) []) ("then")) [.arrowFn ["d"] (.ident ("d"))]

/-- Witness for `C4_theorem`: instantiated at the concrete chain
`fetchX().then((d) => d)`, whose classified slot is async with empty
signal and write lists. -/
theorem C4_witness :
    (analyzeAsyncExpression cexAsync).isAsync = specAsyncShape cexAsync ∧
    analyzeAsyncExpression (.call (.member (.ident ("p")) ("then")) [.ident ("f")]) =
      { isAsync := true, promiseSource := some (printE (.ident ("p")))
        thenCallback := some (printE (.ident ("f"))), catchCallback := none } ∧
    ((classifySlot [] cexAsync).signals = [] ∧ (classifySlot [] cexAsync).writes = []) := by
  have h := C4_theorem cexAsync (.ident ("p")) (.ident ("f")) (.ident ("g")) [] []
    [] cexAsync
  exact ⟨h.1, h.2.1, h.2.2.2 (by decide)⟩

/-! ## Claim C5: memoization of analysis results -/

/-- Process-wide count of `@babel/parser` invocations: the ghost
instrumentation that lets the model talk about re-parsing. -/
structure ParseState where
  count : Nat
deriving Repr, DecidableEq

/-- The `parse` call of src/main.ts line 108, instrumented: every call
parses the source again (the AST model is the render body itself). -/
def parseSource (st : ParseState) (render : Expr) : Expr × ParseState :=
  (render, ⟨st.count + 1⟩)

/-- `analyzeRender` as executed (src/main.ts lines 107–111): it calls
`parse` unconditionally on every invocation; no cache is consulted. -/
def analyzeRenderCounted (st : ParseState) (render : Expr) :
    List ExprAnalysis × ParseState :=
  (analyzeRender (parseSource st render).1, (parseSource st render).2)

/-- The `astCache` `WeakMap` of src/main.ts line 28, keyed by function
identity (modelled as a `Nat` key). -/
structure AstCache where
  entries : List (Nat × Expr)

/-- `getAst` (src/main.ts lines 30–42): consult the cache, parse and
populate on a miss.  This function exists in the source but is never
called: neither `analyzeRender` nor `createHtmlFactory` uses it. -/
def getAst (cache : AstCache) (key : Nat) (render : Expr) (st : ParseState) :
    Expr × AstCache × ParseState :=
  match cache.entries.lookup key with
  | some ast => (ast, cache, st)
  | none =>
    ((parseSource st render).1,
      ⟨cache.entries ++ [(key, (parseSource st render).1)]⟩,
      (parseSource st render).2)

/-- The single-slot render method used for the cache counterexample. -/
def c5Render : Expr :=
  .template ("html") [cs ("<span>"), cs ("</span>")] [.member .this' ("count")]

/-- Claim C5, counterexample.  The claim asserts that after the first
analysis of a render method, every subsequent analysis of the same
method reuses a cached result instead of re-parsing.  Analyzing
`c5Render` twice in a row parses twice (the parse counter reaches `2`,
not `1`): `analyzeRender` re-parses on every call and never consults the
`astCache`. -/
theorem C5_counterexample :
    (analyzeRenderCounted (analyzeRenderCounted ⟨0⟩ c5Render).2 c5Render).2.count = 2 ∧
    ¬ ((analyzeRenderCounted (analyzeRenderCounted ⟨0⟩ c5Render).2 c5Render).2.count = 1)
    := by
  exact ⟨rfl, by decide⟩

/-- Claim C5, amended: no memoization of classification results occurs —
every call of `analyzeRender` parses the render source once more, though
repeated analyses return identical results; the `astCache` of `getAst`
would avoid re-parsing on a hit (returning the cached AST and leaving
the parse count unchanged), but `getAst` is never invoked by the
analysis path. -/
theorem C5_amended (st : ParseState) (render : Expr) :
    (analyzeRenderCounted st render).2.count = st.count + 1 ∧
    (analyzeRenderCounted st render).1 = analyzeRender render ∧
    (∀ cache : AstCache, ∀ key : Nat, ∀ ast : Expr,
      cache.entries.lookup key = some ast →
        (getAst cache key render st).2.2 = st ∧ (getAst cache key render st).1 = ast) := by
  refine ⟨rfl, rfl, ?_⟩
  intro cache key ast hl
  unfold getAst
  rw [hl]
  exact ⟨rfl, rfl⟩

/-- Witness for `C5_amended` at concrete inputs: one analysis from a
fresh counter parses once; a `getAst` hit on a one-entry cache parses
nothing. -/
theorem C5_amended_witness :
    (analyzeRenderCounted ⟨0⟩ c5Render).2.count = 0 + 1 ∧
    (analyzeRenderCounted ⟨0⟩ c5Render).1 = analyzeRender c5Render ∧
    ((getAst ⟨[(7, c5Render)]⟩ 7 c5Render ⟨0⟩).2.2 = (⟨0⟩ : ParseState) ∧
      (getAst ⟨[(7, c5Render)]⟩ 7 c5Render ⟨0⟩).1 = c5Render) := by
  have h := C5_amended ⟨0⟩ c5Render
  exact ⟨h.1, h.2.1, h.2.2 ⟨[(7, c5Render)]⟩ 7 c5Render rfl⟩

/-! ## The HTML factory

`createHtmlFactory` (src/main.ts lines 318–544) renders one component:
it runs the template closure (`html`), which builds the markup string
while recording placeholders and async bindings, then — when live slots
exist — parses the markup via linkedom (the external DOM collaborator,
modelled as an oracle `Str → List Dom`), resolves placeholders in the
three passes of the source (event attributes, other attributes, text
nodes), serializes, and appends the generated client script. -/

/-- The identifier-allocation state: the counter object threaded through
parent and child renders, plus a ghost log of every allocated counter
value (one entry per `` `_${idCounter.value++}` `` execution), used only
to state uniqueness. -/
structure GState where
  counter : Nat
  log : List Nat
deriving Repr, DecidableEq

/-- One identifier allocation. -/
def alloc (g : GState) : String × GState :=
  (mkId g.counter, ⟨g.counter + 1, g.log ++ [g.counter]⟩)

/-- A DOM node of the external DOM collaborator. -/
inductive Dom where
  | elem (tag : String) (attrs : List (String × Str)) (children : List Dom)
  | text (s : Str)

def childrenOf : Dom → List Dom
  | .elem _ _ kids => kids
  | .text _ => []

/-- Replace the `i`-th element of a node list. -/
def modifyChild : List Dom → Nat → (Dom → Dom) → List Dom
  | [], _, _ => []
  | c :: rest, 0, f => f c :: rest
  | c :: rest, n + 1, f => c :: modifyChild rest n f

/-- Apply `f` to the node at `path` (child indices from the root). -/
def modifyAt (d : Dom) (path : List Nat) (f : Dom → Dom) : Dom :=
  match path, d with
  | [], _ => f d
  | i :: rest, .elem t a kids => .elem t a (modifyChild kids i (fun c => modifyAt c rest f))
  | _ :: _, .text s => .text s

def getNodeAt (d : Dom) : List Nat → Option Dom
  | [] => some d
  | i :: rest =>
    match d with
    | .elem _ _ kids =>
      match kids.get? i with
      | some c => getNodeAt c rest
      | none => none
    | .text _ => none

def getAttrsAt (d : Dom) (p : List Nat) : List (String × Str) :=
  match getNodeAt d p with
  | some (.elem _ a _) => a
  | _ => []

def getTextAt (d : Dom) (p : List Nat) : Str :=
  match getNodeAt d p with
  | some (.text s) => s
  | _ => []

/-- `el.setAttribute`: replace in place when present, else append. -/
def setAttrD (name : String) (val : Str) : Dom → Dom
  | .elem t a kids =>
    .elem t
      (if a.any (fun pr => pr.1 == name)
       then a.map (fun pr => if pr.1 == name then (pr.1, val) else pr)
       else a ++ [(name, val)]) kids
  | .text s => .text s

/-- `el.removeAttribute`. -/
def removeAttrD (name : String) : Dom → Dom
  | .elem t a kids => .elem t (a.filter (fun pr => pr.1 != name)) kids
  | .text s => .text s

/-- `textNode.textContent = s`. -/
def setTextD (s' : Str) : Dom → Dom
  | .text _ => .text s'
  | e => e

mutual
/-- Paths of every element at-or-below `d` in document order. -/
def elemPathsNode (d : Dom) (p : List Nat) : List (List Nat) :=
  match d with
  | .elem _ _ kids => p :: elemPathsKids kids p 0
  | .text _ => []
/-- Paths of elements below a child list. -/
def elemPathsKids (l : List Dom) (p : List Nat) (i : Nat) : List (List Nat) :=
  match l with
  | [] => []
  | c :: rest => elemPathsNode c (p ++ [i]) ++ elemPathsKids rest p (i + 1)
end

mutual
/-- Paths of every text node at-or-below `d` in document order (the
`createTreeWalker(root, 4)` enumeration). -/
def textPathsNode (d : Dom) (p : List Nat) : List (List Nat) :=
  match d with
  | .elem _ _ kids => textPathsKids kids p 0
  | .text _ => [p]
/-- Paths of text nodes below a child list. -/
def textPathsKids (l : List Dom) (p : List Nat) (i : Nat) : List (List Nat) :=
  match l with
  | [] => []
  | c :: rest => textPathsNode c (p ++ [i]) ++ textPathsKids rest p (i + 1)
end

/-- HTML void elements, serialized without a closing tag. -/
def voidTags : List String :=
  ["area", "base", "br", "col", "embed", "hr", "img", "input", "link",
   "meta", "source", "track", "wbr"]

/-- Attribute serialization of the DOM collaborator:
`` name="value" `` with the value escaped. -/
def serializeAttrs (a : List (String × Str)) : Str :=
  a.flatMap (fun pr => ' ' :: (pr.1.toList ++ '=' :: '"' :: (escapeHtml pr.2 ++ ['"'])))

mutual
/-- `innerHTML`-style serialization of one node. -/
def serializeDom : Dom → Str
  | .text s => escapeHtml s
  | .elem t a kids =>
    '<' :: (t.toList ++ serializeAttrs a ++ '>' ::
      (if voidTags.contains t then []
       else serializeKids kids ++ ('<' :: '/' :: (t.toList ++ ['>']))))
/-- Serialization of a child list. -/
def serializeKids : List Dom → Str
  | [] => []
  | c :: rest => serializeDom c ++ serializeKids rest
end

mutual
/-- A JavaScript value as it can reach the template closure. -/
inductive JsValue where
  | str (s : Str)
  | num (n : Int)
  | boolean (b : Bool)
  | nul
  | undefinedV
  /-- A function value; `src` is its source text. -/
  | fn (src : String)
  /-- A `SafeHtml` object (carries the marker and `content`). -/
  | safeV (content : Str)
  /-- A renderable component instance. -/
  | renderable (c : Comp)
  | arr (items : List JsValue)
/-- A component instance: its render-method body, the runtime values its
single template invocation interpolates, and its own-field snapshot. -/
inductive Comp where
  | mk (render : Expr) (values : List JsValue) (fields : List (String × JsValue))
end

/-- Decimal printing of a JavaScript integer. -/
def intDigits (n : Int) : Str :=
  if n < 0 then '-' :: natDigits n.natAbs else natDigits n.toNat

mutual
/-- JavaScript `String(v)` coercion. -/
def jsString : JsValue → Str
  | .str s => s
  | .num n => intDigits n
  | .boolean b => if b then cs ("true") else cs ("false")
  | .nul => cs ("null")
  | .undefinedV => cs ("undefined")
  | .fn src => src.toList
  | .safeV content => content
  | .renderable _ => cs ("[object Object]")
  | .arr items => jsStringItems items
/-- `Array.prototype.toString`: elements joined by `,`, with `null` and
`undefined` contributing empty text. -/
def jsStringItems : List JsValue → Str
  | [] => []
  | [v] =>
    match v with
    | .nul => []
    | .undefinedV => []
    | w => jsString w
  | v :: rest =>
    (match v with
     | .nul => []
     | .undefinedV => []
     | w => jsString w) ++ ',' :: jsStringItems rest
end

/-- Escaping inside a JSON string literal. -/
def jsonEscapeChar (c : Char) : Str :=
  if c == '"' then ['\\', '"']
  else if c == '\\' then ['\\', '\\']
  else if c == '\n' then ['\\', 'n']
  else [c]

/-- Comma-join of pre-rendered pieces. -/
def joinComma : List Str → Str
  | [] => []
  | [x] => x
  | x :: rest => x ++ ',' :: joinComma rest

mutual
/-- JavaScript `JSON.stringify`: `none` models the `undefined` result
for values with no JSON representation (functions, `undefined`). -/
def jsonStringify : JsValue → Option Str
  | .str s => some ('"' :: (s.flatMap jsonEscapeChar ++ ['"']))
  | .num n => some (intDigits n)
  | .boolean b => some (if b then cs ("true") else cs ("false"))
  | .nul => some (cs ("null"))
  | .undefinedV => none
  | .fn _ => none
  | .safeV content =>
    some (cs ("\x7b\"content\":\"") ++ content.flatMap jsonEscapeChar ++ cs ("\"\x7d"))
  | .renderable c =>
    match c with
    | .mk _ _ fields => some ('\x7b' :: (joinComma (jsonFields fields) ++ ['\x7d']))
  | .arr items => some ('[' :: (joinComma (jsonItems items) ++ [']']))
/-- Array elements: non-serializable entries become `null`. -/
def jsonItems : List JsValue → List Str
  | [] => []
  | v :: rest => ((jsonStringify v).getD (cs ("null"))) :: jsonItems rest
/-- Object entries: non-serializable entries are dropped. -/
def jsonFields : List (String × JsValue) → List Str
  | [] => []
  | pr :: rest =>
    match jsonStringify pr.2 with
    | some j => ('"' :: (pr.1.toList ++ '"' :: ':' :: j)) :: jsonFields rest
    | none => jsonFields rest
end

/-- The `` ${JSON.stringify(v)} `` template splice: JavaScript prints the
`undefined` result as the text `undefined`. -/
def interpJson (v : JsValue) : Str := (jsonStringify v).getD (cs ("undefined"))

/-- Own-property lookup on the component instance: a missing field reads
as `undefined`. -/
def lookupField (fields : List (String × JsValue)) (s : String) : JsValue :=
  ((fields.find? (fun pr => pr.1 == s)).map (fun pr => pr.2)).getD .undefinedV

/-- A recorded binding (interface `Binding`, src/main.ts lines 206–211). -/
structure BindingR where
  id : String
  signals : List String
  source : String
  /-- The source's `attribute` field (a Lean keyword, hence the name). -/
  attr : Option String
deriving Repr, DecidableEq

/-- A recorded handler (interface `Handler`, src/main.ts lines 213–218). -/
structure HandlerR where
  id : String
  event : String
  source : String
  writes : List String
deriving Repr, DecidableEq

/-- A recorded async binding (interface `AsyncBinding`, src/main.ts
lines 58–63). -/
structure AsyncB where
  id : String
  promiseSource : String
  thenCallback : String
  catchCallback : Option String
deriving Repr, DecidableEq

/-- First-occurrence deduplication; models the insertion-ordered `Set`
of `generateScript`. -/
def dedupFirstAux (seen : List String) : List String → List String
  | [] => []
  | s :: rest =>
    if seen.contains s then dedupFirstAux seen rest
    else s :: dedupFirstAux (s :: seen) rest

def dedupFirst (l : List String) : List String := dedupFirstAux [] l

/-- `b.source.replace(/this\./g, "")`: the string-level `this.` strip. -/
def stripThis (s : String) : Str := replaceAllSub (cs ("this.")) [] s.toList

/-- The deduplicated signal names of `generateScript` (src/main.ts lines
226–228): every binding signal, then every handler write. -/
def allSignalsOf (bindings : List BindingR) (handlers : List HandlerR) : List String :=
  dedupFirst
    (bindings.flatMap (fun b => b.signals) ++ handlers.flatMap (fun h => h.writes))

/-- The `let <signal> = <JSON value>;` declarations (src/main.ts lines
233–238). -/
def sigLines (fields : List (String × JsValue)) (bindings : List BindingR)
    (handlers : List HandlerR) : Str :=
  (allSignalsOf bindings handlers).flatMap (fun s =>
    cs ("  let ") ++ s.toList ++ cs (" = ") ++ interpJson (lookupField fields s) ++
      cs (";\n"))

/-- The element-reference lines (src/main.ts lines 241–250). -/
def idLines (bindings : List BindingR) (handlers : List HandlerR)
    (asyncBindings : List AsyncB) : Str :=
  (dedupFirst
    (bindings.map (fun b => b.id) ++ handlers.map (fun h => h.id) ++
      asyncBindings.map (fun a => a.id))).flatMap (fun i =>
    cs ("  const ") ++ i.toList ++
      cs (" = document.querySelector(\x27[data-zid=\"") ++ i.toList ++ cs ("\"]\x27);\n"))

/-- The `__update` body lines (src/main.ts lines 253–262). -/
def updLines (bindings : List BindingR) : Str :=
  bindings.flatMap (fun b =>
    match b.attr with
    | some a =>
      cs ("    ") ++ b.id.toList ++ cs (".setAttribute(\"") ++ a.toList ++
        cs ("\", ") ++ stripThis b.source ++ cs (");\n")
    | none =>
      cs ("    ") ++ b.id.toList ++ cs (".textContent = ") ++ stripThis b.source ++ cs (";\n"))

/-- The handler-installation lines (src/main.ts lines 265–268). -/
def handlerLines (handlers : List HandlerR) : Str :=
  handlers.flatMap (fun h =>
    cs ("  ") ++ h.id.toList ++ cs (".") ++ h.event.toList ++ cs (" = () => \x7b ") ++
      stripThis h.source ++ cs ("; __update(); \x7d;\n"))

/-- The async re-issue lines (src/main.ts lines 271–288). -/
def asyncLines (asyncBindings : List AsyncB) : Str :=
  asyncBindings.flatMap (fun a =>
    cs ("  ") ++ stripThis a.promiseSource ++ cs ("\n") ++
    cs ("    .then(") ++ stripThis a.thenCallback ++ cs (")\n") ++
    cs ("    .then(__html => \x7b ") ++ a.id.toList ++
      cs (".innerHTML = typeof __html === \x27object\x27 ? __html.content : __html; \x7d)") ++
    (match a.catchCallback with
     | some cc =>
       cs ("\n    .catch(") ++ stripThis cc ++ cs (")\n") ++
       cs ("    .then(__html => \x7b if (__html) ") ++ a.id.toList ++
         cs (".innerHTML = typeof __html === \x27object\x27 ? __html.content : __html; \x7d)")
     | none => []) ++
    cs (";\n"))

/-- `generateScript` (src/main.ts lines 220–293): the client script text,
assembled exactly as in the source. -/
def generateScript (fields : List (String × JsValue)) (bindings : List BindingR)
    (handlers : List HandlerR) (asyncBindings : List AsyncB) : Str :=
  cs ("\n<script>\n(function() \x7b\n") ++ sigLines fields bindings handlers ++
    idLines bindings handlers asyncBindings ++
    cs ("  function __update() \x7b\n") ++ updLines bindings ++ cs ("  \x7d\n") ++
    handlerLines handlers ++ asyncLines asyncBindings ++ cs ("\x7d)();\n</script>")

/-- Quote-peeling step of the factory's attribute-position regex
`/(\w+)=(['"]?)$/` (src/main.ts line 354), scanning from the end. -/
def attrMatchQuote (r : Str) : Option Char × Str :=
  match r with
  | '"' :: rest => (some '"', rest)
  | '\'' :: rest => (some '\'', rest)
  | _ => (none, r)

/-- After the optional quote: require `=` preceded by at least one word
character; capture the name. -/
def attrMatchCore (q : Option Char) (r1 : Str) : Option (Str × Option Char) :=
  match r1 with
  | [] => none
  | d :: r2 =>
    if d = '=' then
      if (r2.takeWhile isWordChar).isEmpty then none
      else some ((r2.takeWhile isWordChar).reverse, q)
    else none

/-- The factory's `strings[i].match(/(\w+)=(['"]?)$/)`: the attribute
name and the captured quote (if any) when the static text ends in an
attribute-value position. -/
def attrMatch (s : Str) : Option (Str × Option Char) :=
  attrMatchCore (attrMatchQuote s.reverse).1 (attrMatchQuote s.reverse).2

/-- `isAttrPosition`: a match with an empty quote group. -/
def isAttrPosB (s : Str) : Bool :=
  match attrMatch s with
  | some (_, none) => true
  | _ => false

/-- Core of the trailing-attribute removal, after the `=` was consumed
(scanning backwards): at least one word character, preceded by a
whitespace character; on a match everything from the whitespace on is
dropped. -/
def removeAttrCore (s : Str) (r2 : Str) : Str :=
  if (r2.takeWhile isWordChar).isEmpty then s
  else
    match r2.dropWhile isWordChar with
    | [] => s
    | w :: rrest => if isWsChar w then rrest.reverse else s

/-- `templateHtml.replace(/\s\w+=$/, "")` (src/main.ts line 405): remove
a trailing whitespace + attribute name + `=` if present. -/
def removeAttrSuffix (s : Str) : Str :=
  match s.reverse with
  | [] => s
  | d :: r2 => if d = '=' then removeAttrCore s r2 else s

/-- The `__PLACEHOLDER_${i}__` token. -/
def placeholderTok (i : Nat) : Str :=
  cs ("__PLACEHOLDER_") ++ natDigits i ++ cs ("__")

/-- One pending placeholder: its token, the interpolated value, and the
classification (`analysis[i]`, which can be absent). -/
structure Ph where
  tok : Str
  value : JsValue
  ea : Option ExprAnalysis

/-- State accumulated by the string-building loop of the template
closure (src/main.ts lines 343–419). -/
structure LoopState where
  tmpl : Str
  phs : List Ph
  asyncs : List AsyncB

/-- State threaded through the three placeholder-resolution passes. -/
structure PassSt where
  dom : Dom
  eids : List (List Nat × String)
  written : List String
  handlers : List HandlerR
  bindings : List BindingR
  g : GState

def lookupEid (eids : List (List Nat × String)) (p : List Nat) : Option String :=
  (eids.find? (fun pr => pr.1 == p)).map (fun pr => pr.2)

/-- The `elementIds` reuse-or-allocate step (src/main.ts lines 440–445,
471–476, 515–520): reuse the element's identifier if one was assigned,
otherwise allocate a fresh one, stamp it as the `data-zid` attribute and
record it. -/
def ensureId (st : PassSt) (p : List Nat) : String × PassSt :=
  match lookupEid st.eids p with
  | some i => (i, st)
  | none =>
    let a := alloc st.g
    (a.1,
      { st with
          g := a.2
          dom := modifyAt st.dom p (setAttrD ("data-zid") (a.1.toList))
          eids := st.eids ++ [(p, a.1)] })

def phIsEvent (ph : Ph) : Bool := (ph.ea.map (fun a => a.isEvent)).getD false

def phReactive (written : List String) (ph : Ph) : Bool :=
  (ph.ea.map (fun a => a.signals.any (fun s => written.contains s))).getD false

def phWrites (ph : Ph) : List String := (ph.ea.map (fun a => a.writes)).getD []

def phSignals (ph : Ph) : List String := (ph.ea.map (fun a => a.signals)).getD []

def phSource (ph : Ph) : String := (ph.ea.map (fun a => a.source)).getD ("")

def phBody (ph : Ph) : String := (ph.ea.bind (fun a => a.bodySource)).getD ("")

/-- Pass 1 (events), innermost step (src/main.ts lines 436–458): an
attribute whose value equals an event placeholder's token assigns or
reuses the element identifier, strips the raw attribute, merges the
slot's writes, and appends a `Handler`. -/
def passAttrPh (an : String) (av : Str) (p : List Nat) (st : PassSt) (ph : Ph) : PassSt :=
  if av == ph.tok && phIsEvent ph then
    let r := ensureId st p
    let st1 := { r.2 with dom := modifyAt r.2.dom p (removeAttrD an) }
    let st2 := { st1 with written := st1.written ++ phWrites ph }
    { st2 with handlers := st2.handlers ++
        [{ id := r.1, event := an, source := phBody ph, writes := phWrites ph }] }
  else st

def passAElem (phs : List Ph) (st : PassSt) (p : List Nat) : PassSt :=
  (getAttrsAt st.dom p).foldl (fun st pr => phs.foldl (passAttrPh pr.1 pr.2 p) st) st

def passA (phs : List Ph) (paths : List (List Nat)) (st : PassSt) : PassSt :=
  paths.foldl (passAElem phs) st

/-- Pass 2 (non-event attribute placeholders), innermost step
(src/main.ts lines 462–492): substitute the literal value; when the slot
is reactive, also assign or reuse the identifier and append a `Binding`
with the attribute name. -/
def passBAttrPh (an : String) (av : Str) (p : List Nat) (st : PassSt) (ph : Ph) : PassSt :=
  if av == ph.tok && !(phIsEvent ph) then
    if phReactive st.written ph then
      let r := ensureId st p
      let st1 := { r.2 with dom := modifyAt r.2.dom p (setAttrD an (jsString ph.value)) }
      { st1 with bindings := st1.bindings ++
          [{ id := r.1, signals := phSignals ph, source := phSource ph
             attr := some an }] }
    else { st with dom := modifyAt st.dom p (setAttrD an (jsString ph.value)) }
  else st

def passBElem (phs : List Ph) (st : PassSt) (p : List Nat) : PassSt :=
  (getAttrsAt st.dom p).foldl (fun st pr => phs.foldl (passBAttrPh pr.1 pr.2 p) st) st

def passB (phs : List Ph) (paths : List (List Nat)) (st : PassSt) : PassSt :=
  paths.foldl (passBElem phs) st

/-- Pass 3 (text-node placeholders), per placeholder (src/main.ts lines
502–530): a reactive placeholder assigns or reuses the identifier on the
parent element, substitutes the literal value for the first token
occurrence, and appends a `Binding` without an attribute; a non-reactive
token is left in place. -/
def passCPh (p : List Nat) (acc : PassSt × Str) (ph : Ph) : PassSt × Str :=
  if !(containsSub ph.tok acc.2) then acc
  else if phIsEvent ph then acc
  else if phReactive acc.1.written ph then
    let r := ensureId acc.1 p.dropLast
    let txt := replaceFirst ph.tok (jsString ph.value) acc.2
    let st1 := { r.2 with dom := modifyAt r.2.dom p (setTextD txt) }
    ({ st1 with bindings := st1.bindings ++
        [{ id := r.1, signals := phSignals ph, source := phSource ph
           attr := none }] }, txt)
  else acc

def passCNode (phs : List Ph) (st : PassSt) (p : List Nat) : PassSt :=
  (phs.foldl (passCPh p) (st, getTextAt st.dom p)).1

def passC (phs : List Ph) (paths : List (List Nat)) (st : PassSt) : PassSt :=
  paths.foldl (passCNode phs) st

/-- The three placeholder-resolution passes in source order: events,
then non-event attributes, then text nodes (the tree walker is created
after the first two passes; mutations do not change the tree shape). -/
def runPasses (phs : List Ph) (paths : List (List Nat)) (st : PassSt) : PassSt :=
  let pst1 := passA phs paths st
  let pst2 := passB phs paths pst1
  passC phs (textPathsKids (childrenOf pst2.dom) [] 0) pst2

/-- The records produced by one factory invocation (its `bindings`,
`handlers`, `asyncBindings` arrays and `elementIds` map), returned so
that theorems can speak about them. -/
structure Audit where
  eids : List (List Nat × String)
  bindings : List BindingR
  handlers : List HandlerR
  asyncs : List AsyncB

/-- The external DOM parser (linkedom's `innerHTML` assignment): a
markup fragment becomes a list of nodes. -/
def Oracle : Type := Str → List Dom

/-- The `SafeHtml` wrapper (src/main.ts lines 297–311): carries the
content and a `toString` that returns exactly that content. -/
structure SafeHtmlM where
  content : Str
  toStr : Str

def mkSafeHtml (c : Str) : SafeHtmlM := ⟨c, c⟩

/-- The TypeScript return type `string | SafeHtml` of the template
closure. -/
inductive HtmlOut where
  | outStr (s : Str)
  | outSafe (h : SafeHtmlM)

/-- `isSafeHtml(rendered) ? rendered.content : rendered`. -/
def spliceOut : HtmlOut → Str
  | .outStr s => s
  | .outSafe h => h.content

/-- The post-loop phase of the template closure (src/main.ts lines
421–541): return the markup directly when no placeholder and no async
binding exists (the factory's `handlers` array is still empty at that
point), otherwise parse, run the three passes, serialize and append the
script when any record exists. -/
def processTemplate (p : Oracle) (fields : List (String × JsValue))
    (written : List String) (st : LoopState) (g : GState) :
    HtmlOut × GState × Audit :=
  if st.phs.isEmpty && st.asyncs.isEmpty then
    (.outSafe (mkSafeHtml st.tmpl), g, ⟨[], [], [], st.asyncs⟩)
  else
    let kids := p st.tmpl
    let root := Dom.elem ("div") [] kids
    let paths := elemPathsKids kids [] 0
    let pst0 : PassSt := ⟨root, [], written, [], [], g⟩
    let pst3 := runPasses st.phs paths pst0
    let res := serializeKids (childrenOf pst3.dom)
    let out :=
      if !pst3.handlers.isEmpty || !pst3.bindings.isEmpty || !st.asyncs.isEmpty then
        res ++ generateScript fields pst3.bindings pst3.handlers st.asyncs
      else res
    (.outSafe (mkSafeHtml out), pst3.g, ⟨pst3.eids, pst3.bindings, pst3.handlers, st.asyncs⟩)

/-- The static segments the (single) template invocation of a render
method passes to the closure. -/
def firstTemplateQuasis (render : Expr) : List Str :=
  match collectTemplates render with
  | [] => []
  | t :: _ => t.1

def concatAll (l : List Str) : Str := l.flatMap (fun x => x)

/-!
The four render functions below recurse through the component/value tree
(`renderValue` re-enters `renderComponent` for nested components).  They
take an explicit fuel argument and recurse structurally on it, so that
applications reduce inside the kernel; with fuel exceeding the size of
the component tree the exhaustion branches are never taken. -/

mutual
/-- `createHtmlFactory` applied to one component followed by its render
invocation: analyze the render method, run the template closure on the
static segments and runtime values, then resolve placeholders.
`writtenSignals` (src/main.ts lines 336–341) is the union of all slots'
writes. -/
def renderComponent (fuel : Nat) (p : Oracle) (c : Comp) (g : GState) :
    HtmlOut × GState × Audit :=
  match fuel with
  | 0 => (.outSafe (mkSafeHtml []), g, ⟨[], [], [], []⟩)
  | fuel + 1 =>
    match c with
    | .mk render values fields =>
      let analysis := analyzeRender render
      let written := analysis.flatMap (fun a => a.writes)
      let r := buildLoop fuel p analysis written (firstTemplateQuasis render) values 0
        ⟨[], [], []⟩ g
      processTemplate p fields written r.1 r.2

/-- The string-building loop (src/main.ts lines 347–419): append the
static segment, then process the value paired with it. -/
def buildLoop (fuel : Nat) (p : Oracle) (analysis : List ExprAnalysis)
    (written : List String) (strings : List Str) (values : List JsValue) (i : Nat)
    (st : LoopState) (g : GState) : LoopState × GState :=
  match fuel with
  | 0 => (st, g)
  | fuel + 1 =>
    match strings, values with
    | [], _ => (st, g)
    | s :: srest, [] => ({ st with tmpl := st.tmpl ++ s ++ concatAll srest }, g)
    | s :: srest, v :: vrest =>
      let st1 := { st with tmpl := st.tmpl ++ s }
      let r := renderValue fuel p analysis written s i v st1 g
      buildLoop fuel p analysis written srest vrest (i + 1) r.1 r.2

/-- Per-value dispatch of the loop (src/main.ts lines 350–417), in the
source's branch order: async slot, event-or-reactive placeholder,
already-safe content, nested renderable, array, falsy sentinel, plain
value. -/
def renderValue (fuel : Nat) (p : Oracle) (analysis : List ExprAnalysis)
    (written : List String) (s : Str) (i : Nat) (v : JsValue) (st : LoopState)
    (g : GState) : LoopState × GState :=
  match fuel with
  | 0 => (st, g)
  | fuel + 1 =>
  let isAttrPos := isAttrPosB s
  let ea := analysis.get? i
  let isEvent := (ea.map (fun a => a.isEvent)).getD false
  let isReactive := (ea.map (fun a => a.signals.any (fun x => written.contains x))).getD false
  let isAsync := (ea.map (fun a => a.isAsync)).getD false
  if isAsync then
    let al := alloc g
    ({ st with
        tmpl := st.tmpl ++ cs ("<span data-zid=\"") ++ al.1.toList ++ cs ("\"></span>")
        asyncs := st.asyncs ++
          [{ id := al.1
             promiseSource := (ea.bind (fun a => a.promiseSource)).getD ("")
             thenCallback := (ea.bind (fun a => a.thenCallback)).getD ("")
             catchCallback := ea.bind (fun a => a.catchCallback) }] }, al.2)
  else if isEvent || isReactive then
    let tok := placeholderTok i
    let newPh : Ph := { tok := tok, value := v, ea := ea }
    let st1 := { st with phs := st.phs ++ [newPh] }
    if isAttrPos then ({ st1 with tmpl := st1.tmpl ++ '"' :: (tok ++ ['"']) }, g)
    else ({ st1 with tmpl := st1.tmpl ++ tok }, g)
  else
    match v with
    | .safeV content => ({ st with tmpl := st.tmpl ++ content }, g)
    | .renderable c =>
      let r := renderComponent fuel p c g
      ({ st with tmpl := st.tmpl ++ spliceOut r.1 }, r.2.1)
    | .arr items =>
      let r := renderItems fuel p items [] g
      ({ st with tmpl := st.tmpl ++ r.1 }, r.2)
    | .boolean false =>
      if isAttrPos then ({ st with tmpl := removeAttrSuffix st.tmpl }, g) else (st, g)
    | .nul =>
      if isAttrPos then ({ st with tmpl := removeAttrSuffix st.tmpl }, g) else (st, g)
    | .undefinedV =>
      if isAttrPos then ({ st with tmpl := removeAttrSuffix st.tmpl }, g) else (st, g)
    | other =>
      if isAttrPos then
        ({ st with tmpl := st.tmpl ++ '"' :: (escapeHtml (jsString other) ++ ['"']) }, g)
      else ({ st with tmpl := st.tmpl ++ escapeHtml (jsString other) }, g)

/-- Array-item dispatch (src/main.ts lines 385–402): safe content and
renderables are spliced, falsy items skipped, the rest escaped inline. -/
def renderItems (fuel : Nat) (p : Oracle) (items : List JsValue) (acc : Str)
    (g : GState) : Str × GState :=
  match fuel with
  | 0 => (acc, g)
  | fuel + 1 =>
    match items with
    | [] => (acc, g)
    | item :: rest =>
      match item with
      | .safeV content => renderItems fuel p rest (acc ++ content) g
      | .renderable c =>
        let r := renderComponent fuel p c g
        renderItems fuel p rest (acc ++ spliceOut r.1) r.2.1
      | .boolean false => renderItems fuel p rest acc g
      | .nul => renderItems fuel p rest acc g
      | .undefinedV => renderItems fuel p rest acc g
      | other => renderItems fuel p rest (acc ++ escapeHtml (jsString other)) g
end

/-! ## Substring lemmas -/

theorem containsSub_iff {pat l : Str} : containsSub pat l = true ↔ pat <:+: l := by
  induction l with
  | nil =>
    simp [containsSub, List.infix_nil, List.isEmpty_iff]
  | cons c rest ih =>
    simp only [containsSub, Bool.or_eq_true, List.isPrefixOf_iff_prefix, ih,
      List.infix_cons_iff]

theorem infix_append_right {pat a b : Str} (h : pat <:+: b) : pat <:+: a ++ b := by
  obtain ⟨s, t, hst⟩ := h
  exact ⟨a ++ s, t, by rw [← hst]; simp⟩

theorem infix_append_left {pat a b : Str} (h : pat <:+: a) : pat <:+: a ++ b := by
  obtain ⟨s, t, hst⟩ := h
  exact ⟨s, t ++ b, by rw [← hst]; simp⟩

theorem infix_flatMap_of_mem {α : Type} {x : α} {l : List α} (f : α → Str)
    (h : x ∈ l) : f x <:+: l.flatMap f := by
  induction l with
  | nil => cases h
  | cons y rest ih =>
    rcases List.mem_cons.mp h with h1 | h2
    · subst h1
      rw [List.flatMap_cons]
      exact infix_append_left ⟨[], [], by simp⟩
    · rw [List.flatMap_cons]
      exact infix_append_right (ih h2)

/-! ## Claim C6: non-serializable signal values -/

/-- The instance and bindings of the C6 counterexample: the signal
`count` holds a function value. -/
def cex6Fields : List (String × JsValue) := [("count", .fn ("() => 1"))]

def cex6Bindings : List BindingR :=
  [{ id := "_0", signals := ["count"], source := "this.count", attr := none }]

/-- Claim C6, counterexample.  The claim asserts that the Script
Generator fails fatally on a signal value with no literal text
representation and never silently emits wrong script text.  For an
instance whose `count` field is a function — a value `JSON.stringify`
maps to `undefined` (modelled by `jsonStringify` returning `none`) —
`generateScript` succeeds and silently emits the declaration
`let count = undefined;`, losing the value. -/
theorem C6_counterexample :
    jsonStringify (.fn ("() => 1")) = none ∧
    containsSub (cs ("  let count = undefined;\n"))
      (generateScript cex6Fields cex6Bindings [] []) = true := by
  exact ⟨rfl, by decide⟩

/-- Claim C6, amended: the generator performs no serializability check.
For every signal referenced by a binding or handler whose instance value
has no JSON representation (`JSON.stringify` yields `undefined`), the
emitted script silently contains the declaration
`let <signal> = undefined;`; generation always returns a script. -/
theorem C6_amended (fields : List (String × JsValue)) (bindings : List BindingR)
    (handlers : List HandlerR) (asyncBindings : List AsyncB) (s : String)
    (hmem : s ∈ allSignalsOf bindings handlers)
    (hnone : jsonStringify (lookupField fields s) = none) :
    containsSub (cs ("  let ") ++ s.toList ++ cs (" = undefined;\n"))
      (generateScript fields bindings handlers asyncBindings) = true := by
  rw [containsSub_iff]
  have hpiece : cs ("  let ") ++ s.toList ++ cs (" = undefined;\n") =
      cs ("  let ") ++ s.toList ++ cs (" = ") ++ interpJson (lookupField fields s) ++
        cs (";\n") := by
    rw [interpJson, hnone]
    simp [cs]
  rw [hpiece]
  have hsig : (cs ("  let ") ++ s.toList ++ cs (" = ") ++
      interpJson (lookupField fields s) ++ cs (";\n")) <:+:
      sigLines fields bindings handlers := by
    have := infix_flatMap_of_mem
      (fun s : String => cs ("  let ") ++ s.toList ++ cs (" = ") ++
        interpJson (lookupField fields s) ++ cs (";\n")) hmem
    simpa [sigLines] using this
  unfold generateScript
  exact infix_append_left (infix_append_left (infix_append_left (infix_append_left
    (infix_append_left (infix_append_left (infix_append_left
      (infix_append_right hsig)))))))

/-- Witness for `C6_amended`: the concrete function-valued `count`
signal yields a script containing `let count = undefined;`. -/
theorem C6_amended_witness :
    containsSub (cs ("  let ") ++ ("count").toList ++ cs (" = undefined;\n"))
      (generateScript cex6Fields cex6Bindings [] []) = true := by
  exact C6_amended cex6Fields cex6Bindings [] [] ("count") (by decide) rfl

/-! ## Claim C10: the closure always returns SafeHtml -/

theorem processTemplate_outSafe (p : Oracle) (fields : List (String × JsValue))
    (written : List String) (st : LoopState) (g : GState) :
    ∃ h : SafeHtmlM, (processTemplate p fields written st g).1 = .outSafe h ∧
      h.toStr = h.content := by
  unfold processTemplate
  split
  · exact ⟨mkSafeHtml st.tmpl, rfl, rfl⟩
  · exact ⟨_, rfl, rfl⟩

/-- Claim C10.  (1) The template closure always returns a `SafeHtml`
value (never a plain string): every run of `renderComponent` produces
the `outSafe` arm of the `string | SafeHtml` union, with `toString`
returning exactly the content; (2) an already-rendered `SafeHtml` value
in a static slot is spliced verbatim — the output is the static parts
with the safe content in between, with no re-escaping. -/
theorem C10_theorem :
    (∀ (fuel : Nat) (p : Oracle) (c : Comp) (g : GState),
      ∃ h : SafeHtmlM, (renderComponent fuel p c g).1 = .outSafe h ∧
        h.toStr = h.content) ∧
    (∀ (fuel : Nat) (p : Oracle) (g : GState) (fields : List (String × JsValue))
      (s0 s1 w : Str) (src : String),
      (renderComponent (fuel + 3) p
        (.mk (.template ("html") [s0, s1] [.lit src]) [.safeV w] fields) g).1 =
        .outSafe (mkSafeHtml (s0 ++ w ++ s1))) := by
  constructor
  · intro fuel p c g
    cases fuel with
    | zero => exact ⟨mkSafeHtml [], rfl, rfl⟩
    | succ f =>
      cases c with
      | mk render values fields =>
        exact processTemplate_outSafe p fields _ _ _
  · intro fuel p g fields s0 s1 w src
    simp [renderComponent, buildLoop, renderValue, processTemplate, analyzeRender,
      firstTemplateQuasis, collectTemplates, collectTemplatesList, classifySlots,
      classifySlot, concatAll, analyzeAsyncExpression, asyncPeel, asyncThen,
      scanSignals, mkSafeHtml]

/-! ## Attribute-position decomposition lemmas -/

theorem attrMatch_ws {a : Str} {w : Char} {nm : Str}
    (hw : isWsChar w = true) (hnm : nm ≠ []) (hword : allP isWordChar nm) :
    attrMatch (a ++ w :: (nm ++ ['='])) = some (nm, none) := by
  have hwordrev : ∀ x ∈ nm.reverse, isWordChar x = true :=
    fun x hx => (allP_iff.mp hword) x ((List.mem_reverse).mp hx)
  have hrev : (a ++ w :: (nm ++ ['='])).reverse =
      '=' :: (nm.reverse ++ (w :: a.reverse)) := by
    simp [List.reverse_append, List.reverse_cons, List.append_assoc]
  have htake : (nm.reverse ++ (w :: a.reverse)).takeWhile isWordChar = nm.reverse := by
    rw [takeWhile_append_all hwordrev, List.takeWhile_cons]
    simp [not_word_of_ws hw]
  have hq : attrMatchQuote ((a ++ w :: (nm ++ ['='])).reverse) =
      (none, '=' :: (nm.reverse ++ (w :: a.reverse))) := by
    rw [hrev]
    rfl
  have hcore : attrMatchCore none ('=' :: (nm.reverse ++ (w :: a.reverse))) =
      if ((nm.reverse ++ (w :: a.reverse)).takeWhile isWordChar).isEmpty then none
      else some (((nm.reverse ++ (w :: a.reverse)).takeWhile isWordChar).reverse,
        none) := rfl
  unfold attrMatch
  rw [hq]
  rw [hcore, htake]
  rw [if_neg (by simp [List.isEmpty_iff, hnm]), List.reverse_reverse]

theorem removeAttrSuffix_ws {a : Str} {w : Char} {nm : Str}
    (hw : isWsChar w = true) (hnm : nm ≠ []) (hword : allP isWordChar nm) :
    removeAttrSuffix (a ++ w :: (nm ++ ['='])) = a := by
  have hwordrev : ∀ x ∈ nm.reverse, isWordChar x = true :=
    fun x hx => (allP_iff.mp hword) x ((List.mem_reverse).mp hx)
  have hrev : (a ++ w :: (nm ++ ['='])).reverse =
      '=' :: (nm.reverse ++ (w :: a.reverse)) := by
    simp [List.reverse_append, List.reverse_cons, List.append_assoc]
  have htake : (nm.reverse ++ (w :: a.reverse)).takeWhile isWordChar = nm.reverse := by
    rw [takeWhile_append_all hwordrev, List.takeWhile_cons]
    simp [not_word_of_ws hw]
  have hdrop : (nm.reverse ++ (w :: a.reverse)).dropWhile isWordChar =
      w :: a.reverse := by
    rw [dropWhile_append_all hwordrev, List.dropWhile_cons]
    simp [not_word_of_ws hw]
  have h1 : removeAttrSuffix (a ++ w :: (nm ++ ['='])) =
      removeAttrCore (a ++ w :: (nm ++ ['='])) (nm.reverse ++ (w :: a.reverse)) := by
    unfold removeAttrSuffix
    rw [hrev]
    rfl
  rw [h1]
  unfold removeAttrCore
  rw [htake, hdrop]
  rw [if_neg (by simp [List.isEmpty_iff, hnm])]
  simp [hw]

/-! ## Claim C1: static fields inline with no identifier and no script -/

/-- A mixed component: field `a` is only read; field `b` is read and
written by the click handler. -/
def cex1Render : Expr :=
  .template ("html")
    [cs ("<button onclick="), cs (">"), cs ("</button><i>"), cs ("</i>")]
    [ .arrowFn [] (.update (.member .this' ("b")))
    , .member .this' ("b")
    , .member .this' ("a") ]

def cex1Comp : Comp :=
  .mk cex1Render [.fn ("() => this.b++"), .str (cs ("5")), .str (cs ("A"))]
    [("a", .str (cs ("A"))), ("b", .str (cs ("5")))]

def cex1Tmpl : Str :=
  cs ("<button onclick=\"") ++ placeholderTok 0 ++ cs ("\">") ++ placeholderTok 1 ++
    cs ("</button><i>A</i>")

/-- Parse of `cex1Tmpl` by the DOM collaborator. -/
def cex1Oracle : Oracle := fun s =>
  if s == cex1Tmpl then
    [ Dom.elem ("button") [("onclick", placeholderTok 0)] [Dom.text (placeholderTok 1)]
    , Dom.elem ("i") [] [Dom.text (cs ("A"))] ]
  else []

/-- Claim C1, counterexample.  The claim quantifies over every component
whose render method reads a field that is never written in that method
and concludes the output has no stable-identifier attribute and no
`<script>` block anywhere.  `cex1Comp` reads field `a`, which no slot of
its render method writes, yet its output contains both `data-zid`
attributes and a `<script>` block (because another field, `b`, is
reactive). -/
theorem C1_counterexample :
    ((analyzeRender cex1Render).map (fun x => x.signals) = [["b"], ["b"], ["a"]]) ∧
    (((analyzeRender cex1Render).flatMap (fun x => x.writes)).contains ("a") = false) ∧
    containsSub (cs ("<script>"))
      (spliceOut (renderComponent 100 cex1Oracle cex1Comp ⟨0, []⟩).1) = true ∧
    containsSub (cs ("data-zid"))
      (spliceOut (renderComponent 100 cex1Oracle cex1Comp ⟨0, []⟩).1) = true := by
  decide

/-- Claim C1, amended: for a component whose render method performs no
writes at all — here, a single text-position slot reading one field —
the field's value is HTML-escaped and inlined as static text, the output
is exactly the static segments around it, no identifier is allocated
(the counter state is returned unchanged), and no binding, handler,
async binding or element identifier is recorded (so there is no
`<script>` block and no stable-identifier attribute beyond what the
static text itself contains).  Rendering twice with different field
values therefore yields markup differing only in the inlined value. -/
theorem C1_amended (fuel : Nat) (p : Oracle) (g : GState)
    (fields : List (String × JsValue)) (fld : String) (s0 s1 v v' : Str)
    (hattr : attrMatch s0 = none) :
    renderComponent (fuel + 3) p
      (.mk (.template ("html") [s0, s1] [.member .this' fld]) [.str v] fields) g =
      (.outSafe (mkSafeHtml (s0 ++ escapeHtml v ++ s1)), g, ⟨[], [], [], []⟩) ∧
    renderComponent (fuel + 3) p
      (.mk (.template ("html") [s0, s1] [.member .this' fld]) [.str v'] fields) g =
      (.outSafe (mkSafeHtml (s0 ++ escapeHtml v' ++ s1)), g, ⟨[], [], [], []⟩) := by
  constructor <;>
    simp [renderComponent, buildLoop, renderValue, processTemplate, analyzeRender,
      firstTemplateQuasis, collectTemplates, collectTemplatesList, classifySlots,
      classifySlot, concatAll, analyzeAsyncExpression, asyncPeel, asyncThen,
      scanSignals, mkSafeHtml, isAttrPosB, hattr, jsString]

/-- Witness for `C1_amended` at a concrete input. -/
theorem C1_amended_witness :
    renderComponent 3 (fun _ => [])
      (.mk (.template ("html") [cs ("<i>"), cs ("</i>")] [.member .this' ("a")])
        [.str (cs ("A"))] []) ⟨0, []⟩ =
      (.outSafe (mkSafeHtml (cs ("<i>") ++ escapeHtml (cs ("A")) ++ cs ("</i>"))),
        ⟨0, []⟩, ⟨[], [], [], []⟩) ∧
    renderComponent 3 (fun _ => [])
      (.mk (.template ("html") [cs ("<i>"), cs ("</i>")] [.member .this' ("a")])
        [.str (cs ("B"))] []) ⟨0, []⟩ =
      (.outSafe (mkSafeHtml (cs ("<i>") ++ escapeHtml (cs ("B")) ++ cs ("</i>"))),
        ⟨0, []⟩, ⟨[], [], [], []⟩) := by
  exact C1_amended 0 (fun _ => []) ⟨0, []⟩ [] ("a") (cs ("<i>")) (cs ("</i>"))
    (cs ("A")) (cs ("B")) (by decide)

/-! ## Claim C7: falsy values in attribute position -/

/-- A quoted attribute-value slot holding `false`:
the template text is `<input disabled="` `${false}` `">`. -/
def cex7Comp : Comp :=
  .mk (.template ("html") [cs ("<input disabled=\""), cs ("\">")] [.lit ("false")])
    [.boolean false] []

/-- Claim C7, counterexample.  The claim asserts that a
`false`/`null`/`undefined` interpolation sitting directly in an
attribute's value slot removes the attribute entirely — the name absent,
not even with an empty value.  For the quoted slot of `cex7Comp` the
factory's attribute-position test fails (the regex captures the quote),
so nothing is removed and the output is `<input disabled="">`: the
attribute is present with an empty value. -/
theorem C7_counterexample :
    attrMatch (cs ("<input disabled=\"")) = some (cs ("disabled"), some '"') ∧
    spliceOut (renderComponent 100 (fun _ => []) cex7Comp ⟨0, []⟩).1 =
      cs ("<input disabled=\"\">") ∧
    containsSub (cs ("disabled=\"\""))
      (spliceOut (renderComponent 100 (fun _ => []) cex7Comp ⟨0, []⟩).1) = true := by
  decide

/-- Claim C7, amended: the attribute removal applies to the unquoted
attribute-value position only: when the static text before the slot ends
with a whitespace character, a nonempty attribute name and `=` (no
quote), a `false`/`null`/`undefined` value removes the whitespace, the
name and the `=` from the markup, and nothing is recorded for the slot. -/
theorem C7_amended (fuel : Nat) (p : Oracle) (g : GState)
    (fields : List (String × JsValue)) (src : String) (a : Str) (w : Char)
    (nm s1 : Str) (v : JsValue) (hw : isWsChar w = true) (hnm : nm ≠ [])
    (hword : allP isWordChar nm)
    (hv : v = JsValue.boolean false ∨ v = JsValue.nul ∨ v = JsValue.undefinedV) :
    renderComponent (fuel + 3) p
      (.mk (.template ("html") [a ++ w :: (nm ++ ['=']), s1] [.lit src]) [v] fields) g =
      (.outSafe (mkSafeHtml (a ++ s1)), g, ⟨[], [], [], []⟩) := by
  have hmatch := attrMatch_ws hw hnm hword (a := a)
  have hrm := removeAttrSuffix_ws hw hnm hword (a := a)
  rcases hv with hv | hv | hv <;> subst hv <;>
    simp [renderComponent, buildLoop, renderValue, processTemplate, analyzeRender,
      firstTemplateQuasis, collectTemplates, collectTemplatesList, classifySlots,
      classifySlot, concatAll, analyzeAsyncExpression, asyncPeel, asyncThen,
      scanSignals, mkSafeHtml, isAttrPosB, hmatch, hrm]

/-- Witness for `C7_amended` at a concrete input:
`<input disabled=${false}>` renders as `<input>`. -/
theorem C7_amended_witness :
    renderComponent 3 (fun _ => [])
      (.mk (.template ("html")
        [cs ("<input") ++ ' ' :: (cs ("disabled") ++ ['=']), cs (">")] [.lit ("false")])
        [.boolean false] []) ⟨0, []⟩ =
      (.outSafe (mkSafeHtml (cs ("<input") ++ cs (">"))), ⟨0, []⟩, ⟨[], [], [], []⟩) := by
  exact C7_amended 0 (fun _ => []) ⟨0, []⟩ [] ("false") (cs ("<input")) ' '
    (cs ("disabled")) (cs (">")) (.boolean false) (by decide) (by decide) (by decide)
    (Or.inl rfl)

/-! ## Claim C9: falsy and true values in text position -/

/-- A component whose second slot reads the written field `v` while
holding the value `false`: the slot is reactive, so it goes through the
placeholder path. -/
def cex9Render : Expr :=
  .template ("html")
    [cs ("<button onclick="), cs (">x</button><span>"), cs ("</span>")]
    [ .arrowFn [] (.update (.member .this' ("v")))
    , .binop ("&&") (.member .this' ("v")) (.lit ("1")) ]

def cex9Comp : Comp :=
  .mk cex9Render [.fn ("() => this.v++"), .boolean false] [("v", .boolean false)]

def cex9Tmpl : Str :=
  cs ("<button onclick=\"") ++ placeholderTok 0 ++ cs ("\">x</button><span>") ++
    placeholderTok 1 ++ cs ("</span>")

def cex9Oracle : Oracle := fun s =>
  if s == cex9Tmpl then
    [ Dom.elem ("button") [("onclick", placeholderTok 0)] [Dom.text (cs ("x"))]
    , Dom.elem ("span") [] [Dom.text (placeholderTok 1)] ]
  else []

/-- Claim C9, counterexample.  The claim asserts that every interpolated
`false` in text position contributes no text to the output.  In
`cex9Comp` the `false` sits in text position (the preceding static text
is not an attribute position), but the slot is reactive (its signal `v`
is written by the sibling handler), so pass 3 substitutes
`String(false)` into the text node: the output contains the text
`false` between tags. -/
theorem C9_counterexample :
    isAttrPosB (cs (">x</button><span>")) = false ∧
    containsSub (cs (">false<"))
      (spliceOut (renderComponent 100 cex9Oracle cex9Comp ⟨0, []⟩).1) = true := by
  decide

/-- Claim C9, amended: for a slot that is not async, not an event and
not reactive (here, a static literal slot in text position), an
interpolated `false`, `null` or `undefined` contributes nothing — the
output is exactly the surrounding static text — whereas `true` in the
same position renders as the text `true`. -/
theorem C9_amended (fuel : Nat) (p : Oracle) (g : GState)
    (fields : List (String × JsValue)) (src : String) (s0 s1 : Str)
    (v : JsValue) (hattr : attrMatch s0 = none)
    (hv : v = JsValue.boolean false ∨ v = JsValue.nul ∨ v = JsValue.undefinedV) :
    renderComponent (fuel + 3) p
      (.mk (.template ("html") [s0, s1] [.lit src]) [v] fields) g =
      (.outSafe (mkSafeHtml (s0 ++ s1)), g, ⟨[], [], [], []⟩) ∧
    renderComponent (fuel + 3) p
      (.mk (.template ("html") [s0, s1] [.lit src]) [.boolean true] fields) g =
      (.outSafe (mkSafeHtml (s0 ++ cs ("true") ++ s1)), g, ⟨[], [], [], []⟩) := by
  have hesc : escapeHtml (cs ("true")) = cs ("true") := by decide
  constructor
  · rcases hv with hv | hv | hv <;> subst hv <;>
      simp [renderComponent, buildLoop, renderValue, processTemplate, analyzeRender,
        firstTemplateQuasis, collectTemplates, collectTemplatesList, classifySlots,
        classifySlot, concatAll, analyzeAsyncExpression, asyncPeel, asyncThen,
        scanSignals, mkSafeHtml, isAttrPosB, hattr]
  · simp [renderComponent, buildLoop, renderValue, processTemplate, analyzeRender,
      firstTemplateQuasis, collectTemplates, collectTemplatesList, classifySlots,
      classifySlot, concatAll, analyzeAsyncExpression, asyncPeel, asyncThen,
      scanSignals, mkSafeHtml, isAttrPosB, hattr, jsString, hesc]

/-- Witness for `C9_amended` at a concrete input: `<b>${null}</b>`
renders as `<b></b>` and `<b>${true}</b>` renders as `<b>true</b>`. -/
theorem C9_amended_witness :
    renderComponent 3 (fun _ => [])
      (.mk (.template ("html") [cs ("<b>"), cs ("</b>")] [.lit ("null")])
        [.nul] []) ⟨0, []⟩ =
      (.outSafe (mkSafeHtml (cs ("<b>") ++ cs ("</b>"))), ⟨0, []⟩, ⟨[], [], [], []⟩) ∧
    renderComponent 3 (fun _ => [])
      (.mk (.template ("html") [cs ("<b>"), cs ("</b>")] [.lit ("null")])
        [.boolean true] []) ⟨0, []⟩ =
      (.outSafe (mkSafeHtml (cs ("<b>") ++ cs ("true") ++ cs ("</b>"))),
        ⟨0, []⟩, ⟨[], [], [], []⟩) := by
  exact C9_amended 0 (fun _ => []) ⟨0, []⟩ [] ("null") (cs ("<b>")) (cs ("</b>"))
    (.nul) (by decide) (Or.inr (Or.inl rfl))

/-! ## Claim C3: stable identifiers

The ghost log of `GState` records the counter value of every identifier
allocation.  `GExt g g'` says the state evolved from `g` by consecutive
allocations only: the log grew by exactly the counter values
`g.counter, g.counter + 1, …`. -/

def GExt (g g' : GState) : Prop :=
  ∃ k, g'.counter = g.counter + k ∧ g'.log = g.log ++ List.range' g.counter k

theorem gext_refl (g : GState) : GExt g g := ⟨0, by simp, by simp [List.range']⟩

theorem gext_trans {g1 g2 g3 : GState} (h1 : GExt g1 g2) (h2 : GExt g2 g3) :
    GExt g1 g3 := by
  obtain ⟨k1, hc1, hl1⟩ := h1
  obtain ⟨k2, hc2, hl2⟩ := h2
  refine ⟨k1 + k2, by omega, ?_⟩
  rw [hl2, hl1, hc1, List.append_assoc]
  congr 1
  have := List.range'_append g1.counter k1 k2 1
  simp only [one_mul] at this
  rw [this]
  congr 1
  omega

theorem gext_alloc (g : GState) : GExt g (alloc g).2 := by
  refine ⟨1, rfl, ?_⟩
  simp [alloc, List.range']

theorem gext_mem_log {g g' : GState} (h : GExt g g') {x : String}
    (hx : x ∈ g.log.map mkId) : x ∈ g'.log.map mkId := by
  obtain ⟨k, hc, hl⟩ := h
  rw [hl, List.map_append]
  exact List.mem_append_left _ hx

theorem foldl_gext {α σ : Type} (f : σ → α → σ) (proj : σ → GState)
    (h : ∀ s a, GExt (proj s) (proj (f s a))) :
    ∀ (l : List α) (s : σ), GExt (proj s) (proj (List.foldl f s l)) := by
  intro l
  induction l with
  | nil => intro s; exact gext_refl _
  | cons a rest ih => intro s; exact gext_trans (h s a) (ih (f s a))

theorem foldl_inv {α σ : Type} (f : σ → α → σ) (P : σ → Prop)
    (h : ∀ s a, P s → P (f s a)) :
    ∀ (l : List α) (s : σ), P s → P (List.foldl f s l) := by
  intro l
  induction l with
  | nil => intro s hs; exact hs
  | cons a rest ih => intro s hs; exact ih (f s a) (h s a hs)

/-- Invariant of the pass state: element-identifier keys are distinct
(each element received at most one identifier), and every recorded
identifier was produced by an allocation (is in the ghost log). -/
def PassInv (st : PassSt) : Prop :=
  (st.eids.map Prod.fst).Nodup ∧
  (∀ pr ∈ st.eids, pr.2 ∈ st.g.log.map mkId) ∧
  (∀ h ∈ st.handlers, h.id ∈ st.g.log.map mkId) ∧
  (∀ b ∈ st.bindings, b.id ∈ st.g.log.map mkId)

theorem alloc_id_mem (g : GState) : (alloc g).1 ∈ (alloc g).2.log.map mkId := by
  simp [alloc]

theorem ensureId_gext (st : PassSt) (p : List Nat) :
    GExt st.g (ensureId st p).2.g := by
  unfold ensureId
  cases lookupEid st.eids p with
  | some i => exact gext_refl _
  | none => exact gext_alloc _

theorem ensureId_inv {st : PassSt} (p : List Nat) (h : PassInv st) :
    PassInv (ensureId st p).2 ∧
      (ensureId st p).1 ∈ (ensureId st p).2.g.log.map mkId := by
  obtain ⟨h1, h2, h3, h4⟩ := h
  unfold ensureId
  cases hl : lookupEid st.eids p with
  | some i =>
    refine ⟨⟨h1, h2, h3, h4⟩, ?_⟩
    unfold lookupEid at hl
    obtain ⟨pr, hfind, hpr⟩ := Option.map_eq_some'.mp hl
    rw [← hpr]
    exact h2 pr (List.mem_of_find?_eq_some hfind)
  | none =>
    have hnotin : p ∉ st.eids.map Prod.fst := by
      intro hmem
      obtain ⟨pr, hprmem, hfst⟩ := List.mem_map.mp hmem
      unfold lookupEid at hl
      rw [Option.map_eq_none'] at hl
      have := List.find?_eq_none.mp hl pr hprmem
      rw [hfst] at this
      simp at this
    refine ⟨⟨?_, ?_, ?_, ?_⟩, ?_⟩
    · simp only [List.map_append, List.map_cons, List.map_nil]
      rw [List.nodup_append]
      refine ⟨h1, List.nodup_singleton _, ?_⟩
      intro x hx
      simp only [List.mem_singleton]
      intro hxp
      exact hnotin (hxp ▸ hx)
    · intro pr hpr
      rcases List.mem_append.mp hpr with hin | hin
      · exact gext_mem_log (gext_alloc st.g) (h2 pr hin)
      · simp only [List.mem_singleton] at hin
        subst hin
        exact alloc_id_mem st.g
    · intro hh hhm
      exact gext_mem_log (gext_alloc st.g) (h3 hh hhm)
    · intro b hb
      exact gext_mem_log (gext_alloc st.g) (h4 b hb)
    · exact alloc_id_mem st.g

theorem passAttrPh_gext (an : String) (av : Str) (p : List Nat) (st : PassSt)
    (ph : Ph) : GExt st.g (passAttrPh an av p st ph).g := by
  unfold passAttrPh
  split
  · exact ensureId_gext st p
  · exact gext_refl _

theorem passAttrPh_inv (an : String) (av : Str) (p : List Nat) (st : PassSt)
    (ph : Ph) (h : PassInv st) : PassInv (passAttrPh an av p st ph) := by
  unfold passAttrPh
  split
  · obtain ⟨⟨h1, h2, h3, h4⟩, hid⟩ := ensureId_inv p h
    refine ⟨h1, h2, ?_, h4⟩
    intro hh hhm
    rcases List.mem_append.mp hhm with hin | hin
    · exact h3 hh hin
    · rw [List.mem_singleton] at hin
      subst hin
      exact hid
  · exact h

theorem passBAttrPh_gext (an : String) (av : Str) (p : List Nat) (st : PassSt)
    (ph : Ph) : GExt st.g (passBAttrPh an av p st ph).g := by
  unfold passBAttrPh
  split
  · split
    · exact ensureId_gext st p
    · exact gext_refl _
  · exact gext_refl _

theorem passBAttrPh_inv (an : String) (av : Str) (p : List Nat) (st : PassSt)
    (ph : Ph) (h : PassInv st) : PassInv (passBAttrPh an av p st ph) := by
  unfold passBAttrPh
  split
  · split
    · obtain ⟨⟨h1, h2, h3, h4⟩, hid⟩ := ensureId_inv p h
      refine ⟨h1, h2, h3, ?_⟩
      intro b hb
      rcases List.mem_append.mp hb with hin | hin
      · exact h4 b hin
      · rw [List.mem_singleton] at hin
        subst hin
        exact hid
    · exact h
  · exact h

theorem passCPh_gext (p : List Nat) (acc : PassSt × Str) (ph : Ph) :
    GExt acc.1.g (passCPh p acc ph).1.g := by
  unfold passCPh
  split
  · exact gext_refl _
  · split
    · exact gext_refl _
    · split
      · exact ensureId_gext acc.1 p.dropLast
      · exact gext_refl _

theorem passCPh_inv (p : List Nat) (acc : PassSt × Str) (ph : Ph)
    (h : PassInv acc.1) : PassInv (passCPh p acc ph).1 := by
  unfold passCPh
  split
  · exact h
  · split
    · exact h
    · split
      · obtain ⟨⟨h1, h2, h3, h4⟩, hid⟩ := ensureId_inv p.dropLast h
        refine ⟨h1, h2, h3, ?_⟩
        intro b hb
        rcases List.mem_append.mp hb with hin | hin
        · exact h4 b hin
        · rw [List.mem_singleton] at hin
          subst hin
          exact hid
      · exact h

theorem passAElem_gext (phs : List Ph) (st : PassSt) (p : List Nat) :
    GExt st.g (passAElem phs st p).g := by
  unfold passAElem
  exact foldl_gext _ PassSt.g (fun s2 pr =>
    foldl_gext _ PassSt.g (fun s3 ph => passAttrPh_gext pr.1 pr.2 p s3 ph) phs s2)
    (getAttrsAt st.dom p) st

theorem passAElem_inv (phs : List Ph) (st : PassSt) (p : List Nat)
    (h : PassInv st) : PassInv (passAElem phs st p) := by
  unfold passAElem
  exact foldl_inv _ PassInv (fun s2 pr hs2 =>
    foldl_inv _ PassInv (fun s3 ph hs3 => passAttrPh_inv pr.1 pr.2 p s3 ph hs3)
      phs s2 hs2) (getAttrsAt st.dom p) st h

theorem passA_gext (phs : List Ph) (paths : List (List Nat)) (st : PassSt) :
    GExt st.g (passA phs paths st).g := by
  unfold passA
  exact foldl_gext _ PassSt.g (fun s pth => passAElem_gext phs s pth) paths st

theorem passA_inv (phs : List Ph) (paths : List (List Nat)) (st : PassSt)
    (h : PassInv st) : PassInv (passA phs paths st) := by
  unfold passA
  exact foldl_inv _ PassInv (fun s pth hs => passAElem_inv phs s pth hs) paths st h

theorem passBElem_gext (phs : List Ph) (st : PassSt) (p : List Nat) :
    GExt st.g (passBElem phs st p).g := by
  unfold passBElem
  exact foldl_gext _ PassSt.g (fun s2 pr =>
    foldl_gext _ PassSt.g (fun s3 ph => passBAttrPh_gext pr.1 pr.2 p s3 ph) phs s2)
    (getAttrsAt st.dom p) st

theorem passBElem_inv (phs : List Ph) (st : PassSt) (p : List Nat)
    (h : PassInv st) : PassInv (passBElem phs st p) := by
  unfold passBElem
  exact foldl_inv _ PassInv (fun s2 pr hs2 =>
    foldl_inv _ PassInv (fun s3 ph hs3 => passBAttrPh_inv pr.1 pr.2 p s3 ph hs3)
      phs s2 hs2) (getAttrsAt st.dom p) st h

theorem passB_gext (phs : List Ph) (paths : List (List Nat)) (st : PassSt) :
    GExt st.g (passB phs paths st).g := by
  unfold passB
  exact foldl_gext _ PassSt.g (fun s pth => passBElem_gext phs s pth) paths st

theorem passB_inv (phs : List Ph) (paths : List (List Nat)) (st : PassSt)
    (h : PassInv st) : PassInv (passB phs paths st) := by
  unfold passB
  exact foldl_inv _ PassInv (fun s pth hs => passBElem_inv phs s pth hs) paths st h

theorem passCNode_gext (phs : List Ph) (st : PassSt) (p : List Nat) :
    GExt st.g (passCNode phs st p).g := by
  unfold passCNode
  exact foldl_gext _ (fun a : PassSt × Str => a.1.g)
    (fun a2 ph => passCPh_gext p a2 ph) phs (st, getTextAt st.dom p)

theorem passCNode_inv (phs : List Ph) (st : PassSt) (p : List Nat)
    (h : PassInv st) : PassInv (passCNode phs st p) := by
  unfold passCNode
  exact foldl_inv _ (fun a : PassSt × Str => PassInv a.1)
    (fun a2 ph ha => passCPh_inv p a2 ph ha) phs (st, getTextAt st.dom p) h

theorem passC_gext (phs : List Ph) (paths : List (List Nat)) (st : PassSt) :
    GExt st.g (passC phs paths st).g := by
  unfold passC
  exact foldl_gext _ PassSt.g (fun s pth => passCNode_gext phs s pth) paths st

theorem passC_inv (phs : List Ph) (paths : List (List Nat)) (st : PassSt)
    (h : PassInv st) : PassInv (passC phs paths st) := by
  unfold passC
  exact foldl_inv _ PassInv (fun s pth hs => passCNode_inv phs s pth hs) paths st h

theorem runPasses_gext (phs : List Ph) (paths : List (List Nat)) (st : PassSt) :
    GExt st.g (runPasses phs paths st).g := by
  unfold runPasses
  exact gext_trans (gext_trans (passA_gext phs paths st)
    (passB_gext phs paths (passA phs paths st)))
    (passC_gext phs
      (textPathsKids (childrenOf (passB phs paths (passA phs paths st)).dom) [] 0)
      (passB phs paths (passA phs paths st)))

theorem runPasses_inv (phs : List Ph) (paths : List (List Nat)) (st : PassSt)
    (h : PassInv st) : PassInv (runPasses phs paths st) := by
  unfold runPasses
  exact passC_inv phs _ _ (passB_inv phs paths _ (passA_inv phs paths st h))

/-- All identifiers recorded in an audit were produced by allocations
(are in the ghost log), and no element received two identifiers. -/
def AuditOk (g : GState) (aud : Audit) : Prop :=
  (aud.eids.map Prod.fst).Nodup ∧
  (∀ pr ∈ aud.eids, pr.2 ∈ g.log.map mkId) ∧
  (∀ hh ∈ aud.handlers, hh.id ∈ g.log.map mkId) ∧
  (∀ b ∈ aud.bindings, b.id ∈ g.log.map mkId) ∧
  (∀ ab ∈ aud.asyncs, ab.id ∈ g.log.map mkId)

theorem processTemplate_c3 (p : Oracle) (fields : List (String × JsValue))
    (written : List String) (st : LoopState) (g : GState)
    (hasync : ∀ ab ∈ st.asyncs, ab.id ∈ g.log.map mkId) :
    GExt g (processTemplate p fields written st g).2.1 ∧
    AuditOk (processTemplate p fields written st g).2.1
      (processTemplate p fields written st g).2.2 := by
  unfold processTemplate
  split
  · refine ⟨gext_refl g, ?_, ?_, ?_, ?_, ?_⟩
    · simp
    · simp
    · simp
    · simp
    · intro ab hab
      exact hasync ab hab
  · have hinv : PassInv (⟨Dom.elem ("div") [] (p st.tmpl), [], written, [], [],
        g⟩ : PassSt) := by
      refine ⟨by simp, by simp, by simp, by simp⟩
    have hg := runPasses_gext st.phs (elemPathsKids (p st.tmpl) [] 0)
      ⟨Dom.elem ("div") [] (p st.tmpl), [], written, [], [], g⟩
    have hinv2 := runPasses_inv st.phs (elemPathsKids (p st.tmpl) [] 0)
      ⟨Dom.elem ("div") [] (p st.tmpl), [], written, [], [], g⟩ hinv
    obtain ⟨h1, h2, h3, h4⟩ := hinv2
    refine ⟨hg, h1, h2, h3, h4, ?_⟩
    intro ab hab
    exact gext_mem_log hg (hasync ab hab)

theorem render_c3 : ∀ fuel : Nat,
    (∀ (p : Oracle) (c : Comp) (g : GState),
      GExt g (renderComponent fuel p c g).2.1 ∧
      AuditOk (renderComponent fuel p c g).2.1 (renderComponent fuel p c g).2.2) ∧
    (∀ (p : Oracle) (a : List ExprAnalysis) (w : List String) (strings : List Str)
      (values : List JsValue) (i : Nat) (st : LoopState) (g : GState),
      GExt g (buildLoop fuel p a w strings values i st g).2 ∧
      ((∀ ab ∈ st.asyncs, ab.id ∈ g.log.map mkId) →
        ∀ ab ∈ (buildLoop fuel p a w strings values i st g).1.asyncs,
          ab.id ∈ (buildLoop fuel p a w strings values i st g).2.log.map mkId)) ∧
    (∀ (p : Oracle) (a : List ExprAnalysis) (w : List String) (s : Str) (i : Nat)
      (v : JsValue) (st : LoopState) (g : GState),
      GExt g (renderValue fuel p a w s i v st g).2 ∧
      ((∀ ab ∈ st.asyncs, ab.id ∈ g.log.map mkId) →
        ∀ ab ∈ (renderValue fuel p a w s i v st g).1.asyncs,
          ab.id ∈ (renderValue fuel p a w s i v st g).2.log.map mkId)) ∧
    (∀ (p : Oracle) (items : List JsValue) (acc : Str) (g : GState),
      GExt g (renderItems fuel p items acc g).2) := by
  intro fuel
  induction fuel with
  | zero =>
    refine ⟨fun p c g => ⟨gext_refl g, ?_, ?_, ?_, ?_, ?_⟩,
      fun p a w strings values i st g => ⟨gext_refl g, fun h => h⟩,
      fun p a w s i v st g => ⟨gext_refl g, fun h => h⟩,
      fun p items acc g => gext_refl g⟩ <;> simp [renderComponent]
  | succ f ih =>
    obtain ⟨ihrc, ihbl, ihrv, ihri⟩ := ih
    refine ⟨?_, ?_, ?_, ?_⟩
    · intro p c g
      cases c with
      | mk render values fields =>
        have hbl := ihbl p (analyzeRender render)
          ((analyzeRender render).flatMap (fun x => x.writes))
          (firstTemplateQuasis render) values 0 ⟨[], [], []⟩ g
        have hasync0 : ∀ ab ∈ (⟨[], [], []⟩ : LoopState).asyncs,
            ab.id ∈ g.log.map mkId := by simp
        have hpt := processTemplate_c3 p fields
          ((analyzeRender render).flatMap (fun x => x.writes))
          (buildLoop f p (analyzeRender render)
            ((analyzeRender render).flatMap (fun x => x.writes))
            (firstTemplateQuasis render) values 0 ⟨[], [], []⟩ g).1
          (buildLoop f p (analyzeRender render)
            ((analyzeRender render).flatMap (fun x => x.writes))
            (firstTemplateQuasis render) values 0 ⟨[], [], []⟩ g).2
          (hbl.2 hasync0)
        exact ⟨gext_trans hbl.1 hpt.1, hpt.2⟩
    · intro p a w strings values i st g
      cases strings with
      | nil => exact ⟨gext_refl g, fun h => h⟩
      | cons s srest =>
        cases values with
        | nil => exact ⟨gext_refl g, fun h => h⟩
        | cons v vrest =>
          have hrv := ihrv p a w s i v { st with tmpl := st.tmpl ++ s } g
          have hbl := ihbl p a w srest vrest (i + 1)
            (renderValue f p a w s i v { st with tmpl := st.tmpl ++ s } g).1
            (renderValue f p a w s i v { st with tmpl := st.tmpl ++ s } g).2
          refine ⟨gext_trans hrv.1 hbl.1, ?_⟩
          intro h ab hab
          exact hbl.2 (hrv.2 h) ab hab
    · intro p a w s i v st g
      constructor
      · show GExt g (renderValue (f + 1) p a w s i v st g).2
        simp only [renderValue]
        split
        · exact gext_alloc g
        · split
          · split
            · exact gext_refl g
            · exact gext_refl g
          · split <;>
              first
                | exact gext_refl g
                | exact (ihrc p _ g).1
                | exact ihri p _ [] g
                | (split <;> exact gext_refl g)
      · intro h
        simp only [renderValue]
        split
        · intro ab hab
          rcases List.mem_append.mp hab with hin | hin
          · exact gext_mem_log (gext_alloc g) (h ab hin)
          · rw [List.mem_singleton] at hin
            subst hin
            exact alloc_id_mem g
        · split
          · split <;> exact fun ab hab => h ab hab
          · split <;>
              first
                | exact fun ab hab => h ab hab
                | exact fun ab hab => gext_mem_log (ihrc p _ g).1 (h ab hab)
                | exact fun ab hab => gext_mem_log (ihri p _ [] g) (h ab hab)
                | (split <;> exact fun ab hab => h ab hab)
    · intro p items acc g
      cases items with
      | nil => exact gext_refl g
      | cons item rest =>
        cases item with
        | str s' => exact ihri p rest _ g
        | num n => exact ihri p rest _ g
        | boolean b => cases b <;> exact ihri p rest _ g
        | nul => exact ihri p rest _ g
        | undefinedV => exact ihri p rest _ g
        | fn src => exact ihri p rest _ g
        | safeV content => exact ihri p rest _ g
        | renderable c => exact gext_trans (ihrc p c g).1 (ihri p rest _ _)
        | arr its => exact ihri p rest _ g

/-- Claim C3.  Within one top-level render (any component tree, any DOM
parse, any starting counter `n`), the ghost log of identifier
allocations is exactly the consecutive counter range starting at `n` —
parent and all recursively rendered descendants share the one counter —
so every stable identifier is `mkId m` (the string `_<m>`) for some `m`,
no identifier is allocated twice, every identifier recorded in a
binding, handler, async binding or the element map comes from an
allocation, and the per-factory element map never assigns an element
two identifiers (its keys are distinct). -/
theorem C3_theorem (fuel : Nat) (p : Oracle) (c : Comp) (n : Nat) :
    (∃ k, (renderComponent fuel p c ⟨n, []⟩).2.1.counter = n + k ∧
      (renderComponent fuel p c ⟨n, []⟩).2.1.log = List.range' n k) ∧
    ((renderComponent fuel p c ⟨n, []⟩).2.1.log.map mkId).Nodup ∧
    (∀ s ∈ (renderComponent fuel p c ⟨n, []⟩).2.1.log.map mkId, ∃ m, s = mkId m) ∧
    AuditOk (renderComponent fuel p c ⟨n, []⟩).2.1
      (renderComponent fuel p c ⟨n, []⟩).2.2 := by
  obtain ⟨⟨k, hc, hl⟩, haud⟩ := (render_c3 fuel).1 p c ⟨n, []⟩
  simp only [List.nil_append] at hl
  refine ⟨⟨k, hc, hl⟩, ?_, ?_, haud⟩
  · rw [hl]
    exact (List.nodup_range' n k).map mkId_injective
  · intro s hs
    obtain ⟨m, _, hm⟩ := List.mem_map.mp hs
    exact ⟨m, hm.symm⟩

/-- The repository's own `Counter` component (src/main.ts lines 654–664):
`html`<button onclick=${() => this.count++}>${this.count}</button>``
with `count = 5`. -/
def counterRender : Expr :=
  .template ("html") [cs ("<button onclick="), cs (">"), cs ("</button>")]
    [.arrowFn [] (.update (.member .this' ("count"))), .member .this' ("count")]

def counterComp : Comp :=
  .mk counterRender [.fn ("() => this.count++"), .num 5] [("count", .num 5)]

def counterTmpl : Str :=
  cs ("<button onclick=\"") ++ placeholderTok 0 ++ cs ("\">") ++ placeholderTok 1 ++
    cs ("</button>")

def counterOracle : Oracle := fun s =>
  if s == counterTmpl then
    [Dom.elem ("button") [("onclick", placeholderTok 0)] [Dom.text (placeholderTok 1)]]
  else []

/-- Witness for `C3_theorem` at the repository's `Counter` component:
the allocation log is a consecutive range from the starting counter, the
element map keys are distinct and every recorded handler identifier was
allocated. -/
theorem C3_witness :
    (∃ k, (renderComponent 100 counterOracle counterComp ⟨0, []⟩).2.1.counter = 0 + k ∧
      (renderComponent 100 counterOracle counterComp ⟨0, []⟩).2.1.log =
        List.range' 0 k) ∧
    (((renderComponent 100 counterOracle counterComp ⟨0, []⟩).2.2.eids.map
      Prod.fst).Nodup) ∧
    (∀ hh ∈ (renderComponent 100 counterOracle counterComp ⟨0, []⟩).2.2.handlers,
      hh.id ∈ (renderComponent 100 counterOracle counterComp ⟨0, []⟩).2.1.log.map
        mkId) := by
  have h := C3_theorem 100 counterOracle counterComp 0
  exact ⟨h.1, h.2.2.2.1, h.2.2.2.2.2.1⟩
